import Mathlib

/-!
Verification development for the eu-nlg-prod natural-language-generation
pipeline.  The Python sources under `eunlg/` are shallowly embedded below:
pure functions become Lean functions, in-place mutation becomes explicit
state passing, Python exceptions become `Except`/`Option` results, Python
floats are modelled as exact rationals (`ℚ`), Python ints as `ℤ`/`ℕ`, and
Python object identity on `Message` instances is modelled by a numeric
identity field (`mid`).  Each embedded definition names the source
function it mirrors.
-/

namespace EUNlg

/-- Python runtime values as they appear in fact fields and slot values
(strings, ints, and floats; floats are modelled as exact rationals). -/
inductive PyVal where
  | s (v : String)
  | i (v : ℤ)
  | q (v : ℚ)
deriving DecidableEq, Repr

/-- Python `==` on `PyVal`: numeric cross-type comparison is by value
(`1 == 1.0` is `True` in Python), string-to-number comparison is `False`. -/
def pyEq : PyVal → PyVal → Bool
  | .s a, .s b => a == b
  | .i a, .i b => a == b
  | .q a, .q b => a == b
  | .i a, .q b => ((a : ℚ) == b)
  | .q a, .i b => (a == (b : ℚ))
  | _, _ => false

/-- Timestamps as stored in `Fact.timestamp`.  In Python these are strings
such as `"2020"` (year granularity) or `"2020M04"` (month granularity);
`eu_importance_allocator` parses them with `int(...)` and `.split("M")`.
We model the two parsed shapes plus an opaque raw string. -/
inductive Ts where
  | y (year : ℤ)
  | ym (year : ℤ) (month : ℕ)
  | raw (v : String)
deriving DecidableEq, Repr

/-- String rendering of a timestamp (used by `TimeSource.__call__`).
Zero-padding of months is not reproduced; no claim depends on it. -/
def tsRender : Ts → String
  | .y n => toString n
  | .ym y m => toString y ++ "M" ++ toString m
  | .raw v => v

/-- Mirrors `core.models.Fact` (a `NamedTuple`): one observed statistic.
`value` and `outlierness` are floats in the data, modelled as `ℚ`. -/
structure Fact where
  location : String
  locationType : String
  value : ℚ
  valueType : String
  agent : String
  agentType : String
  timestamp : Ts
  timestampType : String
  outlierness : ℚ
deriving DecidableEq, Repr

/-- Mirrors `getattr(fact, name)` for the `NamedTuple` field names
(`Fact._fields`); `none` models `AttributeError` for an unknown name. -/
def getField (f : Fact) : String → Option PyVal
  | "location" => some (.s f.location)
  | "location_type" => some (.s f.locationType)
  | "value" => some (.q f.value)
  | "value_type" => some (.s f.valueType)
  | "agent" => some (.s f.agent)
  | "agent_type" => some (.s f.agentType)
  | "timestamp" => some (.s (tsRender f.timestamp))
  | "timestamp_type" => some (.s f.timestampType)
  | "outlierness" => some (.q f.outlierness)
  | _ => none

/-- Membership test mirroring `name in fact._fields`. -/
def isFactField (name : String) : Bool :=
  name ∈ ["location", "location_type", "value", "value_type",
          "agent", "agent_type", "timestamp", "timestamp_type", "outlierness"]

/-- Structural prefix test on character lists (used to model the string
operations whose library versions are not definitionally reducible). -/
def isPrefixList : List Char → List Char → Bool
  | [], _ => true
  | _ :: _, [] => false
  | a :: as, b :: bs => a == b && isPrefixList as bs

/-- Worker for `strSplitOn`: walks the text one character at a time,
splitting at each leftmost non-overlapping occurrence of `sep`; `skip`
counts separator characters still to be consumed after a match. -/
def splitGo (sep : List Char) : List Char → List Char → ℕ → List (List Char)
  | [], acc, _ => [acc.reverse]
  | c :: rest, acc, 0 =>
    if sep ≠ [] && isPrefixList sep (c :: rest) then
      acc.reverse :: splitGo sep rest [] (sep.length - 1)
    else splitGo sep rest (c :: acc) 0
  | _ :: rest, acc, skip + 1 => splitGo sep rest acc skip

/-- Python `str.split(sep)` / Lean `String.splitOn` on a non-empty
separator (all separators in the sources are non-empty literals). -/
def strSplitOn (s sep : String) : List String :=
  if sep.toList = [] then [s]
  else (splitGo sep.toList s.toList [] 0).map fun cs => String.mk cs

/-- Python `str.startswith`. -/
def strStartsWith (s pre : String) : Bool := isPrefixList pre.toList s.toList

/-- Mirrors `core.models.SlotSource` and its subclasses.  The constant
lambdas assigned to `slot.value` by the realizers (`lambda x: token`) are
modelled by `literal`, exactly as `LiteralSource` is. -/
inductive SlotSource where
  | field (name : String)
  | literal (v : PyVal)
  | time
  | unitS
deriving DecidableEq, Repr

/-- Mirrors `core.models.Slot`: a slot source, free-form attributes and an
optionally bound fact.  Attribute values are strings. -/
structure Slot where
  src : SlotSource
  attributes : List (String × String)
  fact : Option Fact
deriving DecidableEq, Repr

/-- Mirrors `Slot.slot_type` (`self._to_value.field_name`). -/
def Slot.slotType (s : Slot) : String :=
  match s.src with
  | .field n => n
  | .literal _ => "literal"
  | .time => "time"
  | .unitS => "unit"

/-- Mirrors the `Slot.value` property (`self._to_value(self.fact)`).
`none` models the `AttributeError` raised when a field/time/unit source is
evaluated with no bound fact. -/
def Slot.value (s : Slot) : Option PyVal :=
  match s.src with
  | .literal v => some v
  | .field n => s.fact.bind (fun f => getField f n)
  | .time => s.fact.map (fun f =>
      .s ("[TIME:" ++ f.timestampType ++ ":" ++ tsRender f.timestamp ++ "]"))
  | .unitS => s.fact.map (fun f => .s ("[UNIT:" ++ f.valueType ++ "]"))

/-- Mirrors `core.models.TemplateComponent`: a `Literal` or a `Slot`. -/
inductive Comp where
  | lit (v : String)
  | slotC (s : Slot)
deriving DecidableEq, Repr

/-- Mirrors the `value` property of a template component. -/
def Comp.value : Comp → Option PyVal
  | .lit v => some (.s v)
  | .slotC s => s.value

/-- Mirrors `slot_type` on components (`Literal.slot_type = "Literal"`). -/
def Comp.slotType : Comp → String
  | .lit _ => "Literal"
  | .slotC s => s.slotType

/-- A template rule, mirroring `Template._rules` entries:
a list of matchers and the component indices to be filled by the matching
fact.  A `Matcher` is embedded by its extension, i.e. the function
`Matcher.__call__ : (fact, all_facts) -> bool`. -/
abbrev MatcherF := Fact → List Fact → Bool

abbrev Rule := List MatcherF × List ℕ

/-- Mirrors `core.models.Template`: ordered components, rules, and the
`_facts` list recorded by a successful `fill`. -/
structure Template where
  components : List Comp
  rules : List Rule := []
  facts : List Fact := []

/-- Mirrors `Template.has_slot_of_type`. -/
def Template.hasSlotOfType (t : Template) (ty : String) : Bool :=
  t.components.any fun c =>
    match c with
    | .slotC s => s.slotType == ty
    | .lit _ => false

/-- Mirrors `core.models.Message`.  `mid` models Python object identity
(`Message` defines no `__eq__`, so `==`, `in` and dict keys compare
object identity); `mainFact` mirrors `_main_fact` (kept in sync with
`_facts[0]` by the constructor and the `facts` setter). -/
structure Msg where
  mid : ℕ
  facts : List Fact
  mainFact : Fact
  importanceCoefficient : ℚ := 1
  score : ℚ := 0
  polarity : ℚ := 0
  preventAggregation : Bool := false
  template : Option Template := none

/-- Python identity comparison between messages. -/
def msgEq (a b : Msg) : Bool := a.mid == b.mid

/-- Mirrors the `Message.facts` setter (`core/models.py`, lines 158-161):
`self._facts = facts; self._main_fact = self._facts[0]`.  Assigning an
empty list raises `IndexError` on `self._facts[0]`, modelled as `.error`. -/
def Msg.setFacts (m : Msg) (fs : List Fact) : Except Unit Msg :=
  match fs with
  | [] => .error ()
  | f :: _ => .ok { m with facts := fs, mainFact := f }

/-! ## Template matching (`Template.check` / `Template.fill`) -/

/-- Mirrors the slot-filling inner loop of `Template.check`:
`for slot_index in slot_indices: component = self._components[slot_index];
if isinstance(component, Slot): component.fact = fact`.  An out-of-range
index would raise `IndexError` in Python; rule indices of well-formed
templates are in range, and the no-op branch is unreachable for them. -/
def bindStep (f : Fact) (cs : List Comp) (i : ℕ) : List Comp :=
  match cs[i]? with
  | some (Comp.slotC s) => cs.set i (Comp.slotC { s with fact := some f })
  | _ => cs

def bindSlots (comps : List Comp) (idxs : List ℕ) (f : Fact) : List Comp :=
  idxs.foldl (bindStep f) comps

/-- One matcher list applied to a candidate fact, mirroring
`all(matcher(fact, used_facts) for matcher in matchers)`. -/
def matchersAll (matchers : List MatcherF) (f : Fact) (used : List Fact) : Bool :=
  matchers.all fun mr => mr f used

/-- The loop over `self._rules[1:]` in `Template.check`: each rule is tried
against the pool messages in order; the first message whose main fact
satisfies all matchers is taken, its fact is appended to `used` unless
already present (identity-style reuse), and slots are bound when
`fillSlots` is set.  Returns `([], comps)` when some rule has no match
(Python returns `[]`, keeping any partial slot mutations). -/
def checkGo (pool : List Msg) :
    List Rule → List Fact → List Comp → Bool → List Fact × List Comp
  | [], used, comps, _ => (used, comps)
  | (matchers, idxs) :: rest, used, comps, fillSlots =>
    match pool.find? (fun m => matchersAll matchers m.mainFact used) with
    | none => ([], comps)
    | some m =>
      let comps1 := if fillSlots then bindSlots comps idxs m.mainFact else comps
      let used1 := if m.mainFact ∈ used then used else used ++ [m.mainFact]
      checkGo pool rest used1 comps1 fillSlots

/-- Mirrors `Template.check` (`core/models.py`, lines 271-327).  Returns
the reported fact list together with the resulting template state (slot
bindings and `_facts`); with `fillSlots = false` the template state is
returned unchanged, mirroring the absence of mutation.  `rules = []`
would raise `IndexError` on `self._rules[0]` in Python; it is modelled as
an empty report and is excluded by hypothesis wherever it matters. -/
def Template.check (t : Template) (primary : Msg) (pool : List Msg)
    (fillSlots : Bool) : List Fact × Template :=
  match t.rules with
  | [] => ([], t)
  | (m0, idxs0) :: rest =>
    if matchersAll m0 primary.mainFact [] then
      let comps1 := if fillSlots then bindSlots t.components idxs0 primary.mainFact
                    else t.components
      let res := checkGo pool rest [primary.mainFact] comps1 fillSlots
      if res.1 = [] then (res.1, { t with components := res.2 })
      else (res.1, { t with components := res.2,
                            facts := if fillSlots then res.1 else t.facts })
    else ([], t)

/-- Mirrors `Template.fill` (`check` with `fill_slots=True`). -/
def Template.fill (t : Template) (primary : Msg) (pool : List Msg) :
    List Fact × Template :=
  t.check primary pool true

/-- Specification-side satisfiability of the trailing rules: each rule is
matched by some message of the pool, messages tried in order, consumed
facts reused only by identity (deduplicated into `used`). -/
def rulesSat (pool : List Msg) : List Rule → List Fact → Bool
  | [], _ => true
  | (matchers, _) :: rest, used =>
    match pool.find? (fun m => matchersAll matchers m.mainFact used) with
    | none => false
    | some m =>
      rulesSat pool rest (if m.mainFact ∈ used then used else used ++ [m.mainFact])

/-- Specification-side usability of a template for a primary message: the
first rule matches the primary fact and every subsequent rule is matched
by some pool message. -/
def templateUsable (t : Template) (primary : Msg) (pool : List Msg) : Bool :=
  match t.rules with
  | [] => false
  | (m0, _) :: rest =>
    matchersAll m0 primary.mainFact [] && rulesSat pool rest [primary.mainFact]

/-! ## Aggregator (`core.aggregator.Aggregator`) -/

/-- Relations between document-plan children (`core.models.Relation`). -/
inductive Relation where
  | elaboration
  | exemplification
  | contrast
  | sequence
  | listR
deriving DecidableEq, Repr

/-- The document-plan tree: a `Message` leaf or an inner
`DocumentPlanNode` with a relation and ordered children. -/
inductive DPNode where
  | msg (m : Msg)
  | node (rel : Relation) (children : List DPNode)

/-- One language's entry of `resources.conjunctions_resource.CONJUNCTIONS`
(e.g. `{"default_combiner": "and", "inverse_combiner": "but", ...}`). -/
structure ConjDict where
  defaultCombiner : String
  inverseCombiner : String

/-- Python `dict.get(key, default)` over an association list (all
attribute dictionaries in the sources use distinct keys). -/
def attrGet (attrs : List (String × String)) (k d : String) : String :=
  ((attrs.find? (fun p => p.1 == k)).map (fun p => p.2)).getD d

/-- Python `==` between two slot/component values, where `none` models a
value whose evaluation raises.  (In Python the comparison itself would
raise in that case; no claim exercises unbound-fact components, and the
aggregator only reaches `_are_same` behind `_same_prefix`.) -/
def valEq : Option PyVal → Option PyVal → Bool
  | some a, some b => pyEq a b
  | none, none => true
  | _, _ => false

/-- The `case` attribute of a component as read by `_are_same`:
`"no-case"` when the component has no `attributes` mapping (a `Literal`,
whose attribute access raises `AttributeError`, caught in the source),
otherwise `attributes.get("case", "")`. -/
def compCase : Comp → String
  | .lit _ => "no-case"
  | .slotC s => attrGet s.attributes "case" ""

/-- Mirrors `Aggregator._are_same` (`core/aggregator.py`, lines 164-202):
values must compare equal; two fact-bound slots additionally require a
non-`value` slot type and equal underlying fact fields for simple slot
types; finally the `case` attributes must agree. -/
def areSame (c1 c2 : Comp) : Bool :=
  if !(valEq c1.value c2.value) then false
  else
    match c1, c2 with
    | .slotC s1, .slotC s2 =>
      match s1.fact, s2.fact with
      | some f1, some f2 =>
        if s1.slotType == "value" then false
        else if isFactField s1.slotType && isFactField s2.slotType
                && !(valEq (getField f1 s1.slotType) (getField f2 s2.slotType)) then
          false
        else compCase c1 == compCase c2
      | _, _ => valEq c1.value c2.value
    | _, _ => compCase c1 == compCase c2

/-- Mirrors `Aggregator._same_prefix`: compares the first components'
values; `AttributeError` (missing template, or a value whose evaluation
raises) yields `False`, but an `IndexError` on empty component lists is
*not* caught and propagates (modelled as `.error`). -/
def samePrefixB (first second : Msg) : Except Unit Bool :=
  match first.template, second.template with
  | some t1, some t2 =>
    match t1.components, t2.components with
    | c1 :: _, c2 :: _ =>
      match c1.value, c2.value with
      | some v1, some v2 => .ok (pyEq v1 v2)
      | _, _ => .ok false
    | _, _ => .error ()
  | _, _ => .ok false

/-- Mirrors `Aggregator._has_implicit_time`: no `time`-typed slot in the
message's template.  (Callers only reach this behind `_same_prefix`, so
the template is present; a missing template would raise in Python.) -/
def hasImplicitTime (m : Msg) : Bool :=
  match m.template with
  | some t => !(t.hasSlotOfType "time")
  | none => true

/-- The first-divergence loop of `Aggregator._combine`
(`for idx, other_component in enumerate(second...)`): stop at the first
index that is beyond `first` or where `_are_same` fails; when the loop
runs off the end of `second`, `idx` keeps its last value
`second.length - 1`.  The `second = []` case leaves `idx` unbound in
Python (`NameError`, noted in a source TODO); it is excluded by
hypothesis wherever it matters. -/
def combineIdxGo : List Comp → List Comp → ℕ → ℕ
  | fs, s :: ss, i =>
    match fs with
    | [] => i
    | f :: fs1 =>
      if !(areSame f s) then i
      else
        match ss with
        | [] => i
        | _ => combineIdxGo fs1 ss (i + 1)
  | _, [], i => i

def combineIdx (first second : List Comp) : ℕ := combineIdxGo first second 0

/-- Closed-form characterisation of `combineIdx`: the first index at
which `second` diverges from `first` (out of range of `first`, or
`_are_same` fails), defaulting to `second.length - 1` when the loop runs
to its natural end. -/
def firstDivergence (first second : List Comp) : ℕ :=
  ((List.range second.length).find? fun i =>
      decide (first.length ≤ i) ||
        !(areSame ((first.get? i).getD (.lit "")) ((second.get? i).getD (.lit "")))).getD
    (second.length - 1)

/-- An empty template (no components, no rules). -/
def emptyTemplate : Template := { components := [] }

/-- Mirrors `Aggregator._combine` (`core/aggregator.py`, lines 129-162):
all of `first`'s components, then one conjunction literal — chosen by the
source's comparison `first.polarity != first.polarity`, which never holds,
so always the default combiner — then `second`'s components from the
divergence index on.  The merged message carries the deduplicated union
of facts, `first`'s importance coefficient, and is marked
`prevent_aggregation`.  (Callers guarantee both templates are present;
the merged message's object identity is irrelevant to the claims, so the
model reuses `first.mid`.) -/
def combine (conjs : ConjDict) (first second : Msg) : Msg :=
  let fcomps := ((first.template).getD emptyTemplate).components
  let scomps := ((second.template).getD emptyTemplate).components
  let idx := combineIdx fcomps scomps
  let conj := if first.polarity ≠ first.polarity then conjs.inverseCombiner
              else conjs.defaultCombiner
  let comps := fcomps ++ [Comp.lit conj] ++ scomps.drop idx
  let newFacts := first.facts ++ second.facts.filter (fun f => f ∉ first.facts)
  { mid := first.mid
    facts := newFacts
    mainFact := match newFacts with
                | f :: _ => f
                | [] => first.mainFact  -- Message() would raise on an empty fact list
    importanceCoefficient := first.importanceCoefficient
    template := some { components := comps }
    preventAggregation := true }

/-- One iteration of the `_aggregate_sequence` loop
(`core/aggregator.py`, lines 69-98) for a `Message` child: compare with
the last element of the accumulated `new_children`.  A non-message
previous child would raise `AttributeError` on `prevent_aggregation`
(modelled as `.error`).  Case numbering follows the source comment:
case 2 (previous explicit, current implicit) merges with the arguments
swapped; case 5 (previous implicit, current explicit) does not merge. -/
def aggStep (conjs : ConjDict) (acc : List DPNode) (curr : Msg) :
    Except Unit (List DPNode) :=
  match acc.getLast? with
  | none => .ok (acc ++ [.msg curr])
  | some (.node _ _) => .error ()
  | some (.msg prev) =>
    if prev.preventAggregation || curr.preventAggregation then
      .ok (acc ++ [.msg curr])
    else do
      let sp ← samePrefixB prev curr
      if sp then
        if !(hasImplicitTime prev) && hasImplicitTime curr then
          .ok (acc.dropLast ++ [.msg (combine conjs curr prev)])
        else if hasImplicitTime prev && !(hasImplicitTime curr) then
          .ok (acc ++ [.msg curr])
        else
          .ok (acc.dropLast ++ [.msg (combine conjs prev curr)])
      else .ok (acc ++ [.msg curr])

mutual

/-- Mirrors `Aggregator._aggregate`: messages are returned unchanged;
`ELABORATION` and `LIST` raise `NotImplementedError`; every other
relation is handled by `_aggregate_sequence`. -/
def aggregate (conjs : ConjDict) : DPNode → Except Unit DPNode
  | .msg m => .ok (.msg m)
  | .node rel children =>
    match rel with
    | .elaboration => .error ()
    | .listR => .error ()
    | _ => do
      let cs ← aggSeqGo conjs children []
      .ok (.node rel cs)

/-- The child loop of `Aggregator._aggregate_sequence`: non-message
children are recursively aggregated and appended; message children go
through `aggStep` against the accumulated new children. -/
def aggSeqGo (conjs : ConjDict) : List DPNode → List DPNode → Except Unit (List DPNode)
  | [], acc => .ok acc
  | .msg m :: rest, acc => do
    let acc1 ← aggStep conjs acc m
    aggSeqGo conjs rest acc1
  | child :: rest, acc => do
    let c1 ← aggregate conjs child
    aggSeqGo conjs rest (acc ++ [c1])

end

/-! ## EU document planner (`eu_document_planner.py`, `core.document_planner`) -/

/-- Constants from `eu_document_planner.py`, lines 9-17. -/
def MAX_PARAGRAPHS : ℕ := 3

def MAX_SATELLITES_PER_NUCLEUS : ℕ := 5

def MIN_SATELLITES_PER_NUCLEUS : ℕ := 2

def NEW_PARAGRAPH_ABSOLUTE_THRESHOLD : ℚ := 1/2

def SATELLITE_RELATIVE_THRESHOLD : ℚ := 1/2

def SATELLITE_ABSOLUTE_THRESHOLD : ℚ := 1/5

/-- Mirrors `_topic`: the first three `:`-separated segments of the main
fact's `value_type`. -/
def topicOf (m : Msg) : String :=
  String.intercalate ":" ((strSplitOn m.mainFact.valueType ":").take 3)

/-- Python identity membership `m in pool` for messages. -/
def memMsg (pool : List Msg) (m : Msg) : Bool :=
  pool.any fun x => msgEq x m

/-- Python `[x for x in pool if x != m]` with identity inequality. -/
def removeMsg (pool : List Msg) (m : Msg) : List Msg :=
  pool.filter fun x => !(msgEq x m)

/-- The message identities of a pool. -/
def midsOf (pool : List Msg) : List ℕ := pool.map Msg.mid

/-- Stable insertion into a sorted list (kept before equal elements, as
Python's stable `list.sort` does for earlier-occurring elements). -/
def insertSorted (le : α → α → Bool) (x : α) : List α → List α
  | [] => [x]
  | y :: ys => if le x y then x :: y :: ys else y :: insertSorted le x ys

/-- A stable sort (insertion sort), modelling Python's stable in-place
`list.sort`: elements whose keys compare equal keep their input order. -/
def sortStable (le : α → α → Bool) : List α → List α
  | [] => []
  | a :: l => insertSorted le a (sortStable le l)

theorem mem_insertSorted (le : α → α → Bool) (x b : α) (l : List α) :
    b ∈ insertSorted le x l ↔ b = x ∨ b ∈ l := by
  induction l with
  | nil => simp [insertSorted]
  | cons y ys ih =>
    by_cases h : le x y
    · simp [insertSorted, h]
    · simp only [insertSorted, h, Bool.false_eq_true, if_false, List.mem_cons, ih]
      tauto

theorem mem_sortStable (le : α → α → Bool) (b : α) (l : List α) :
    b ∈ sortStable le l ↔ b ∈ l := by
  induction l with
  | nil => simp [sortStable]
  | cons a l ih => simp [sortStable, mem_insertSorted, ih]

/-- Stable descending sort by score, mirroring
`available.sort(key=lambda message: message.score, reverse=True)`. -/
def byScoreDesc (a b : Msg) : Bool := decide (b.score ≤ a.score)

/-- Stable descending sort by the first pair component, mirroring
`filtered_scored_available.sort(key=lambda pair: pair[0], reverse=True)`. -/
def byFstDesc (a b : ℚ × Msg) : Bool := decide (b.1 ≤ a.1)

/-- Sorting a pool descending by score and taking the top entry with its
score (`available[0]` after the in-place sort). -/
def pickTopScore (pool : List Msg) : Option Msg × ℚ :=
  match sortStable byScoreDesc pool with
  | [] => (none, 0)
  | n :: _ => (some n, n.score)

/-- Mirrors `_select_next_nucleus` (`eu_document_planner.py`, lines
49-105): stop at `MAX_PARAGRAPHS`; prefer messages whose (topic,
location) pair is uncovered; with no uncovered pair left, stop if more
than one topic was covered, relax to the whole pool if exactly one was;
otherwise pick the highest-scoring survivor.  (In the relaxation branch
the Python in-place sort also reorders the caller's pool; that
side-effect only permutes the pool and is not modelled.) -/
def selectNextNucleus (availableMessages selectedNuclei : List Msg) :
    Option Msg × ℚ :=
  if MAX_PARAGRAPHS ≤ selectedNuclei.length then (none, 0)
  else
    let selectedTopics := selectedNuclei.map fun n => (topicOf n, n.mainFact.location)
    let available := availableMessages.filter fun m =>
      !((topicOf m, m.mainFact.location) ∈ selectedTopics)
    if available.isEmpty then
      if 1 < selectedTopics.length then (none, 0)
      else if selectedTopics.length = 1 then pickTopScore availableMessages
      else (none, 0)
    else pickTopScore available

/-- Mirrors `_new_paragraph_relative_threshold` (lines 108-118); `none`
models `float("-inf")`. -/
def newParagraphRelativeThreshold (selectedNuclei : List Msg) : Option ℚ :=
  match selectedNuclei with
  | [] => none
  | [_] => some 0
  | n0 :: _ :: _ => some (3/10 * n0.score)

/-- Comparison against a possibly `-inf` threshold. -/
def ltEF (x : ℚ) : Option ℚ → Bool
  | none => false
  | some t => decide (x < t)

/-- The prefix rounds of `_weigh_by_analysis_similarity` (lines 244-254):
`fragmentCounts` enumerates `reversed(range(len(fragments)))` and `n` the
enumeration index; matches of the current prefix are weighted by
`1 / (n + 1)`, the rest go to the next round.  Returns the weighted
additions in emission order together with the final unprocessed rest. -/
def prefixRoundsGo (fragments : List String) :
    List ℕ → ℕ → List (ℚ × Msg) → List (ℚ × Msg) × List (ℚ × Msg)
  | [], _, msgs => ([], msgs)
  | fc :: rest, n, msgs =>
    let pre := String.intercalate ":" (fragments.take (fc + 1))
    let hits := (msgs.filter fun p => strStartsWith p.2.mainFact.valueType pre).map
      fun p => (p.1 / ((n : ℚ) + 1), p.2)
    let misses := msgs.filter fun p => !(strStartsWith p.2.mainFact.valueType pre)
    let res := prefixRoundsGo fragments rest (n + 1) misses
    (hits ++ res.1, res.2)

/-- Mirrors `_weigh_by_analysis_similarity` (lines 223-258): messages of
a different topic are zero-weighted first (in input order), topical
messages then go through the prefix rounds, and messages sharing no
prefix at all are zero-weighted last. -/
def weighByAnalysisSimilarity (messages : List (ℚ × Msg)) (previous : Msg) :
    List (ℚ × Msg) :=
  let zeros := (messages.filter fun p => !(topicOf p.2 == topicOf previous)).map
    fun p => ((0 : ℚ), p.2)
  let topical := messages.filter fun p => topicOf p.2 == topicOf previous
  let fragments := strSplitOn previous.mainFact.valueType ":"
  let res := prefixRoundsGo fragments (List.range fragments.length).reverse 0 topical
  zeros ++ res.1 ++ res.2.map fun p => ((0 : ℚ), p.2)

/-- Mirrors `_weigh_by_context_similarity` (lines 261-279). -/
def weighByContextSimilarity (messages : List (ℚ × Msg)) (previous : Msg) :
    List (ℚ × Msg) :=
  messages.map fun p =>
    if previous.mainFact.location ≠ p.2.mainFact.location
        ∧ previous.mainFact.timestamp ≠ p.2.mainFact.timestamp then
      ((0 : ℚ), p.2)
    else
      ((p.1 * (if previous.mainFact.location = p.2.mainFact.location then 2 else 1))
          * (if previous.mainFact.timestamp = p.2.mainFact.timestamp then 3/2 else 1),
        p.2)

/-- Lookup in the dict comprehension
`{message: score for (score, message) in scores_v_nucleus}`: keys are
object identities and later entries overwrite earlier ones.  The
`KeyError` case cannot arise in `_select_satellites_for_nucleus` (both
weighted lists range over the same messages) and is modelled as 0. -/
def dictScore (l : List (ℚ × Msg)) (m : Msg) : ℚ :=
  match l.reverse.find? fun p => msgEq p.2 m with
  | some p => p.1
  | none => 0

/-- Sorting a scored pool descending and taking the top message
(`filtered_scored_available[0]` after the in-place sort). -/
def pickTopPair (pool : List (ℚ × Msg)) : Option Msg :=
  match sortStable byFstDesc pool with
  | [] => none
  | p :: _ => some p.2

/-- One iteration of the `while True` loop of
`_select_satellites_for_nucleus` (`eu_document_planner.py`, lines
139-220) up to the choice of the next satellite: `some sat` when the
loop selects `sat`, `none` when it returns the accumulated satellites.
`satsLen` is `len(satellites)`, `dist` is `dist_from_prev_core_message`. -/
def satStep (nucleus : Msg) (core exp : List Msg) (satsLen : ℕ)
    (previous : Msg) (dist : ℕ) : Option Msg :=
  let scoredCore := (core.filter fun m => decide (0 < m.score)).map fun m => (m.score, m)
  let scoredExp := (exp.filter fun m => decide (0 < m.score)).map
    fun m => (m.score / ((dist : ℚ) + 1), m)
  let scoredAvail := scoredCore ++ scoredExp
  let svn := weighByContextSimilarity (weighByAnalysisSimilarity scoredAvail nucleus) nucleus
  let svp := weighByContextSimilarity (weighByAnalysisSimilarity scoredAvail previous) previous
  let weighted := svp.map fun p => ((1 * dictScore svn p.2 + p.1) / (1 + 1), p.2)
  let filtered := weighted.filter fun p =>
    decide (SATELLITE_RELATIVE_THRESHOLD * nucleus.score < p.1)
      || decide (SATELLITE_ABSOLUTE_THRESHOLD < p.1)
  let pool? : Option (List (ℚ × Msg)) :=
    if filtered.isEmpty then
      if MIN_SATELLITES_PER_NUCLEUS ≤ satsLen then none
      else if !(weighted.isEmpty) then some weighted
      else none
    else some filtered
  match pool? with
  | none => none
  | some pool =>
    if MAX_SATELLITES_PER_NUCLEUS ≤ satsLen then none
    else pickTopPair pool

/-- The satellite-selection loop, fuelled: each selected satellite is
removed from the core pool when it is a core message (identity
membership), otherwise from the expanded pool, resetting or bumping
`dist_from_prev_core_message` and becoming the new `previous`.  The fuel
only bounds the recursion; `satFuel_sufficient` below shows that
`core.length + exp.length + 1` fuel never runs out, so the fuelled
function coincides with the Python loop. -/
def selectSatellitesFuel (nucleus : Msg) :
    ℕ → List Msg → List Msg → List Msg → Msg → ℕ → Option (List Msg)
  | 0, _, _, _, _, _ => none
  | fuel + 1, core, exp, sats, prev, dist =>
    match satStep nucleus core exp sats.length prev dist with
    | none => some sats
    | some sat =>
      if memMsg core sat then
        selectSatellitesFuel nucleus fuel (removeMsg core sat) exp (sats ++ [sat]) sat 1
      else
        selectSatellitesFuel nucleus fuel core (removeMsg exp sat) (sats ++ [sat]) sat (dist + 1)

/-- Mirrors `_select_satellites_for_nucleus` (lines 121-220), starting
with no satellites, `previous = nucleus` and distance 1. -/
def selectSatellites (nucleus : Msg) (core exp : List Msg) : List Msg :=
  (selectSatellitesFuel nucleus (core.length + exp.length + 1) core exp [] nucleus 1).getD []

/-- Failure modes of the body planner: `noNuclei` mirrors
`raise Exception("Document plan generation finished with no nuclei")`;
`outOfFuel` marks exhaustion of the fuelled loop and is proved
unreachable with fuel `MAX_PARAGRAPHS + 1`. -/
inductive PlanErr where
  | noNuclei
  | outOfFuel
deriving DecidableEq, Repr

/-- The `while True` loop of `BodyDocumentPlanner.run`
(`core/document_planner.py`, lines 78-104), instantiated with the EU
planner's strategy functions.  Paragraphs are represented by their
message lists `[nucleus] + satellites` (each becomes a SEQUENCE child of
the root). -/
def bodyLoopFuel :
    ℕ → List Msg → List Msg → List Msg → List (List Msg) →
      Except PlanErr (List (List Msg))
  | 0, _, _, _, _ => .error .outOfFuel
  | fuel + 1, core, exp, selected, paragraphs =>
    let sel := selectNextNucleus core selected
    match sel.1 with
    | none =>
      if selected.isEmpty then .error .noNuclei else .ok paragraphs
    | some nucleus =>
      if decide (sel.2 < NEW_PARAGRAPH_ABSOLUTE_THRESHOLD)
          || ltEF sel.2 (newParagraphRelativeThreshold selected) then
        if selected.isEmpty then .error .noNuclei else .ok paragraphs
      else
        let selected1 := selected ++ [nucleus]
        let core1 := removeMsg core nucleus
        let sats := selectSatellites nucleus core1 exp
        let core2 := core1.filter fun m => !(memMsg sats m)
        let exp2 := exp.filter fun m => !(memMsg sats m)
        bodyLoopFuel fuel core2 exp2 selected1 (paragraphs ++ [nucleus :: sats])

/-- Mirrors `BodyDocumentPlanner.run` for the EU body planner: the
document plan (as the list of paragraph message lists) together with the
returned `core_messages + expanded_messages`. -/
def bodyRun (core exp : List Msg) : Except PlanErr (List (List Msg) × List Msg) :=
  (bodyLoopFuel (MAX_PARAGRAPHS + 1) core exp [] []).map fun ps => (ps, core ++ exp)

/-! ## Importance scorer (`eu_importance_allocator.EUImportanceSelector`) -/

/-- Python substring containment `needle in haystack` (all needles used
by the scorer are non-empty, for which `splitOn` counts occurrences). -/
def substrOf (needle hay : String) : Bool :=
  (strSplitOn hay needle).length != 1

/-- Mirrors `math.pow` for the base-0.7 rank decay.  Exact for integer
exponents; a non-integer exponent yields an irrational number in Python,
which has no exact rational counterpart and is modelled as 0 (rank values
in the data are integers, and no claim depends on this branch). -/
def powQ (b : ℚ) (e : ℚ) : ℚ :=
  if e.den = 1 then b ^ e.num else 0

/-- The timestamp factor of `score_importance_single`
(`eu_importance_allocator.py`, lines 138-150): `timestamp_score = 20`,
then the year branch multiplies by `min(1, 1/(Y+1-t)**2)` and by 2, and
the month branch interpolates between the year-level decays with the
13-month convention.  `none` models the runtime errors of this code:
`ZeroDivisionError` when a denominator hits 0 and `ValueError` when the
timestamp string does not parse for the given `timestamp_type`. -/
def tsScorePart (fact : Fact) (nowYear : ℤ) : Option ℚ :=
  if fact.timestampType = "year" then
    match fact.timestamp with
    | .y t =>
      let d := nowYear + 1 - t
      if d = 0 then none
      else some (20 * min 1 (1 / ((d : ℚ)) ^ 2) * 2)
    | _ => none
  else if fact.timestampType = "month" then
    match fact.timestamp with
    | .ym y mo =>
      let d1 := nowYear + 1 - y
      let d2 := nowYear + 1 - (y - 1)
      if d1 = 0 ∨ d2 = 0 then none
      else
        let thisYear := min 1 ((1 / (d1 : ℚ)) ^ 2)
        let prevYear := min 1 ((1 / (d2 : ℚ)) ^ 2)
        let delta := thisYear - prevYear
        let deltaPerMonth := delta / 13
        let monthEffect := deltaPerMonth * (13 - (mo : ℚ))
        some (20 * (thisYear - monthEffect))
    | _ => none
  else some 20

/-- Mirrors `EUImportanceSelector.score_importance_single`
(`eu_importance_allocator.py`, lines 80-169).  `nowYear` stands for
`datetime.datetime.now().year`.  The `or 1` on `fact.outlierness`
replaces a falsy 0.0 by 1; the NaN branch has no rational counterpart
and is not modelled (no claim involves NaN).  `where_type_score` is the
constant 1.  The `importance_coefficient is not None` guard always holds
(the field defaults to 1.0), so the coefficient is always multiplied. -/
def scoreImportanceSingle (m : Msg) (nowYear : ℤ) : Option ℚ :=
  let fact := m.mainFact
  let outlierScore : ℚ := if fact.outlierness = 0 then 1 else fact.outlierness
  let vt := fact.valueType
  let valueTypeScore : ℚ := if substrOf "_trend" vt then 1 * 500 else 1
  if substrOf "_nac" vt then some 0
  else
    let valueTypeScore : ℚ :=
      if substrOf "_pps" vt then valueTypeScore * 10
      else if substrOf "_eur" vt then valueTypeScore * 40
      else valueTypeScore
    if substrOf "y-lt6" vt || substrOf "y6-10" vt || substrOf "y6-11" vt
        || substrOf "y11-15" vt || substrOf "y12-17" vt || substrOf "y-lt16" vt
        || substrOf "y16-24" vt || substrOf "y16-64" vt || substrOf "y-ge16" vt
        || substrOf "y-lt18" vt then some 0
    else if substrOf "_t_" vt then some 0
    else
      let whatScore := valueTypeScore * outlierScore
      (tsScorePart fact nowYear).map fun timestampScore =>
        let messageScore := 1 * whatScore * timestampScore
        let messageScore :=
          if substrOf "_rank" vt then messageScore * powQ (7/10) (fact.value - 1)
          else messageScore
        let messageScore :=
          if substrOf "_reverse" vt then
            if substrOf "_change" vt then messageScore * (7/10)
            else messageScore * (1/4)
          else messageScore
        messageScore * m.importanceCoefficient

/-! ## Template selector fallback (`TemplateSelector._add_template_to_message`) -/

/-- Mirrors `Slot.copy()` / `Literal.copy()` with the default
`include_fact=False`: attributes are copied, the bound fact is dropped. -/
def compCopy : Comp → Comp
  | .lit v => .lit v
  | .slotC s => .slotC { src := s.src, attributes := s.attributes, fact := none }

/-- Mirrors `Template.copy`: copied components, shared rules, fresh
(empty) fact list. -/
def Template.copy (t : Template) : Template :=
  { components := t.components.map compCopy, rules := t.rules }

/-- Mirrors `core.models.DefaultTemplate`: a single literal component. -/
def DefaultTemplate (cannedText : String) : Template :=
  { components := [Comp.lit cannedText] }

/-- Mirrors `TemplateSelector._add_template_to_message`
(`core/template_selector.py`, lines 143-165): copy the chosen template,
fill it against the message and pool, fall back to `DefaultTemplate("")`
when filling reports no facts, then assign `message.template` and
`message.facts = used_facts`.  The final assignment goes through the
`Message.facts` setter, which indexes `self._facts[0]`. -/
def addTemplateToMessage (message : Msg) (templateOriginal : Template)
    (allMessages : List Msg) : Except Unit Msg :=
  let template := templateOriginal.copy
  let res := template.fill message allMessages
  let tmpl := if res.1.isEmpty then DefaultTemplate "" else res.2
  Msg.setFacts { message with template := some tmpl } res.1

/-! ## Slot realizer (`core.realize_slots`) -/

/-- The numpy generator threaded through the pipeline, modelled as the
stream of its future draws. -/
abbrev Rng := List ℕ

/-- One draw of `random.choice` over `n` alternatives. -/
def rngDraw (rng : Rng) (n : ℕ) : ℕ × Rng :=
  ((rng.headD 0) % max n 1, rng.tail)

/-- Python `str.split()` (whitespace tokenisation; modelled on spaces). -/
def splitWs (s : String) : List String :=
  (strSplitOn s " ").filter fun t => !(t.isEmpty)

/-- Truthiness of `attributes.get(key)`: present with a non-empty value. -/
def attrTruthy (attrs : List (String × String)) (k : String) : Bool :=
  match attrs.find? fun p => p.1 == k with
  | some p => !(p.2.isEmpty)
  | none => false

/-- Python `dict.__setitem__` on an association list. -/
def dictSet (attrs : List (String × String)) (k v : String) :
    List (String × String) :=
  if attrs.any fun p => p.1 == k then
    attrs.map fun p => if p.1 == k then (p.1, v) else p
  else attrs ++ [(k, v)]

/-- All-digit decimal string to a natural number. -/
def natDigits (s : String) : Option ℕ :=
  if s.isEmpty then none
  else s.toList.foldl
    (fun acc? c => acc?.bind fun acc =>
      if c.isDigit then some (acc * 10 + (c.toNat - 48)) else none)
    (some 0)

/-- Python `float(str)` on plain decimal literals (optional sign, digits,
optional fraction).  Exponent/&c. forms are not modelled; no claim
depends on them. -/
def parseFloat (s : String) : Option ℚ :=
  let signed : ℚ × String :=
    if strStartsWith s "-" then (-1, s.drop 1)
    else if strStartsWith s "+" then (1, s.drop 1) else (1, s)
  let body := signed.2
  match strSplitOn body "." with
  | [intPart] => (natDigits intPart).map fun n => signed.1 * (n : ℚ)
  | [intPart, fracPart] =>
    match natDigits intPart, natDigits fracPart with
    | some a, some b =>
      some (signed.1 * ((a : ℚ) + (b : ℚ) / (10 : ℚ) ^ fracPart.length))
    | _, _ => none
  | _ => none

/-- Python `float(value)`: floats and ints pass through, strings are
parsed, anything else raises (`ValueError`, caught by the caller). -/
def floatOf : PyVal → Option ℚ
  | .q v => some v
  | .i v => some (v : ℚ)
  | .s s => parseFloat s

/-- Round half to even (Python `round` on our exact-decimal model;
binary floating-point artefacts of CPython are not reproduced, and no
claim depends on them). -/
def roundHalfEven (q : ℚ) : ℤ :=
  let fl := ⌊q⌋
  let frac := q - fl
  if frac < 1/2 then fl
  else if 1/2 < frac then fl + 1
  else if fl % 2 = 0 then fl else fl + 1

/-- Python `round(q, n)` to `n` decimal places. -/
def roundTo (q : ℚ) (n : ℕ) : ℚ :=
  (roundHalfEven (q * 10 ^ n) : ℚ) / 10 ^ n

/-- The outcome of one realizer attempt on a slot, keeping track of
Python object identity: `kept` is `return True, [slot]` (the same list
cell, compared equal by `modified_components != [child]` even when the
slot's value was rewritten in place), `replaced` is a success with fresh
components, `fail` passes control to the next realizer. -/
inductive RealizeRes where
  | fail
  | kept (s : Slot)
  | replaced (cs : List Comp)

/-- Mirrors `NumberRealizer.realize` (`core/realize_slots.py`, lines
81-106): parse the value as a float, apply `abs` when the attribute is
truthy, render integral values as ints, otherwise round to the first
non-zero decimal beyond two places; always `True, [slot]` on parseable
values.  A slot whose value evaluation raises is modelled as a
non-match. -/
def numberRealize (slot : Slot) : RealizeRes :=
  match slot.value with
  | none => .fail
  | some v =>
    match floatOf v with
    | none => .fail
    | some x0 =>
      let x := if attrTruthy slot.attributes "abs" then |x0| else x0
      if x.den = 1 then .kept { slot with src := .literal (.i x.num) }
      else
        match (List.range 5).find? fun r => !(roundTo x r = 0) with
        | some r => .kept { slot with src := .literal (.q (roundTo x (r + 2))) }
        | none => .kept slot

/-- The data of a `RegexRealizer` instance (`core/realize_slots.py`,
lines 109-176).  The compiled regex is embedded by its extension
(`re.fullmatch` returning the captured groups) and each alternative
template string by its `format(*groups)` function. -/
structure RegexData where
  languages : List String
  pattern : String → Option (List String)
  groupReq : Option (List String → Bool)
  slotReq : Option (Slot → Bool)
  templates : List (List String → String)
  attachAttributesTo : List ℕ
  addAttributes : List (ℕ × List (String × String))

/-- The data of a `LookupRealizer` instance (lines 179-221). -/
structure LookupData where
  languages : List String
  dict : List (String × String)
  attachAttributesTo : List ℕ

/-- Token expansion shared by the regex and lookup realizers: one new
slot per whitespace token of the realization, the original attributes
kept only at the designated positions, `add_attributes` merged in, the
fact carried over (`slot.copy(include_fact=True)`), and the value fixed
to the token. -/
def tokensToComps (slot : Slot) (attachTo : List ℕ)
    (addAttrs : List (ℕ × List (String × String))) (rendered : String) :
    List Comp :=
  (splitWs rendered).enum.map fun p =>
    let baseAttrs := if p.1 ∈ attachTo then slot.attributes else []
    let added := ((addAttrs.find? fun q => q.1 = p.1).map fun q => q.2).getD []
    Comp.slotC
      { src := .literal (.s p.2)
        attributes := added.foldl (fun a kv => dictSet a kv.1 kv.2) baseAttrs
        fact := slot.fact }

/-- Mirrors `RegexRealizer.realize`: requires a string value, a full
match, and the group/slot requirements; then draws one of the
alternative templates and splits the rendered string into components.
All failure paths precede the draw, so failures never consume
randomness. -/
def regexRealize (d : RegexData) (slot : Slot) (rng : Rng) : RealizeRes × Rng :=
  match slot.value with
  | some (.s sval) =>
    match d.pattern sval with
    | none => (.fail, rng)
    | some groups =>
      if ((d.groupReq.map fun gr => gr groups).getD true) = false then (.fail, rng)
      else if ((d.slotReq.map fun sr => sr slot).getD true) = false then (.fail, rng)
      else
        let draw := rngDraw rng d.templates.length
        let tmpl := (d.templates.get? draw.1).getD fun _ => ""
        (.replaced (tokensToComps slot d.attachAttributesTo d.addAttributes (tmpl groups)),
          draw.2)
  | _ => (.fail, rng)

/-- Mirrors `LookupRealizer.realize`: requires a string value present in
the dictionary; no randomness. -/
def lookupRealize (d : LookupData) (slot : Slot) : RealizeRes :=
  match slot.value with
  | some (.s sval) =>
    match d.dict.find? fun p => p.1 == sval with
    | none => .fail
    | some p => .replaced (tokensToComps slot d.attachAttributesTo [] p.2)
  | _ => .fail

/-- The closed set of slot-realizer components instantiated by the
system: `RegexRealizer` and `LookupRealizer` instances from the
resources, plus the built-in `NumberRealizer`. -/
inductive RealizerC where
  | regex (d : RegexData)
  | lookup (d : LookupData)
  | number

/-- Mirrors `supported_languages()` for each realizer class. -/
def realizerLanguages : RealizerC → List String
  | .regex d => d.languages
  | .lookup d => d.languages
  | .number => ["ANY"]

/-- The language gate of `SlotRealizer._realize_slot`. -/
def supportedFor (r : RealizerC) (lang : String) : Bool :=
  lang ∈ realizerLanguages r || "ANY" ∈ realizerLanguages r

/-- Mirrors `SlotRealizer._realize_slot` (lines 61-68): try each
applicable realizer in order until one succeeds; return the untouched
slot when none does. -/
def realizeSlot (rs : List RealizerC) (lang : String) (slot : Slot)
    (rng : Rng) : RealizeRes × Rng :=
  match rs with
  | [] => (.kept slot, rng)
  | r :: rest =>
    if supportedFor r lang then
      match r with
      | .number =>
        match numberRealize slot with
        | .fail => realizeSlot rest lang slot rng
        | res => (res, rng)
      | .regex d =>
        match regexRealize d slot rng with
        | (.fail, rng1) => realizeSlot rest lang slot rng1
        | res => res
      | .lookup d =>
        match lookupRealize d slot with
        | .fail => realizeSlot rest lang slot rng
        | res => (res, rng)
    else realizeSlot rest lang slot rng

/-- The component loop of `SlotRealizer._recurse` on a `Message` (lines
45-59): literals pass through; a slot is realized, `kept` results keep
the modification flag unchanged (Python compares the returned list
against `[child]` by object identity), `replaced` results set it and
iteration continues after the spliced components. -/
def processComps (rs : List RealizerC) (lang : String) :
    List Comp → Rng → List Comp × Bool × Rng
  | [], rng => ([], false, rng)
  | .lit v :: rest, rng =>
    let res := processComps rs lang rest rng
    (.lit v :: res.1, res.2)
  | .slotC s :: rest, rng =>
    match realizeSlot rs lang s rng with
    | (.kept s1, rng1) =>
      let res := processComps rs lang rest rng1
      (.slotC s1 :: res.1, res.2)
    | (.replaced newCs, rng1) =>
      let res := processComps rs lang rest rng1
      (newCs ++ res.1, true, res.2.2)
    | (.fail, rng1) =>
      -- `_realize_slot` never returns `.fail` (its base case is `kept`);
      -- this branch is unreachable and mirrors the `kept` behaviour.
      let res := processComps rs lang rest rng1
      (.slotC s :: res.1, res.2)

mutual

/-- Mirrors `SlotRealizer._recurse` (lines 39-59): messages have their
template components processed in place; other nodes recurse over their
children with Python `any(...)` short-circuiting. -/
def srRecurse (rs : List RealizerC) (lang : String) :
    DPNode → Rng → DPNode × Bool × Rng
  | .msg m, rng =>
    match m.template with
    | none => (.msg m, false, rng)
    | some t =>
      let res := processComps rs lang t.components rng
      (.msg { m with template := some { t with components := res.1 } }, res.2)
  | .node rel children, rng =>
    let res := srChildren rs lang children rng
    (.node rel res.1, res.2)

/-- The `any(self._recurse(child, language) for child in children)`
generator: it stops evaluating at the first modified child, leaving the
remaining children untouched for this pass. -/
def srChildren (rs : List RealizerC) (lang : String) :
    List DPNode → Rng → List DPNode × Bool × Rng
  | [], rng => ([], false, rng)
  | c :: rest, rng =>
    let res := srRecurse rs lang c rng
    if res.2.1 then (res.1 :: rest, true, res.2.2)
    else
      let res2 := srChildren rs lang rest res.2.2
      (res.1 :: res2.1, res2.2)

end

/-- The `while self._recurse(document_plan, ...)` loop of
`SlotRealizer.run` (lines 21-37), fuelled: `none` when the fixed point
is not reached within `fuel` passes (the Python loop would still be
running). -/
def slotRunLoop (rs : List RealizerC) (lang : String) :
    ℕ → DPNode → Rng → Option (DPNode × Rng)
  | 0, _, _ => none
  | fuel + 1, t, rng =>
    let res := srRecurse rs lang t rng
    if res.2.1 then slotRunLoop rs lang fuel res.1 res.2.2
    else some (res.1, res.2.2)

/-- Mirrors `SlotRealizer.run`: append the built-in `NumberRealizer` to
the registry's realizer list, strip the `-head` suffix from the
language, and iterate passes to a fixed point. -/
def slotRealizerRun (registryRealizers : List RealizerC) (language : String)
    (fuel : ℕ) (tree : DPNode) (rng : Rng) : Option (DPNode × Rng) :=
  slotRunLoop (registryRealizers ++ [.number])
    ((strSplitOn language "-").headD language) fuel tree rng

/-! ## Service boundary (`EUNlgService.run_pipeline`, `NLGPipeline.run`) -/

/-- The exception classes distinguished by `EUNlgService.run_pipeline`:
`NoMessagesForSelectionException` and every other `Exception`. -/
inductive PipeErr where
  | noMessagesForSelection
  | general
deriving DecidableEq, Repr

/-- Mirrors `numpy.random.default_rng(prng_seed)` as used by
`NLGPipeline.run`: with a seed the generator state is a function of the
seed alone; with `None` it is seeded from OS entropy. -/
def defaultRng : Option ℕ → ℕ → ℕ
  | some seed, _ => seed
  | none, entropy => entropy

/-- Mirrors `core.pipeline.NLGPipeline`: an ordered list of components.
Each component mirrors `component.run(registry, prng, language, *args)`
as a function of the stage value and the generator state, returning the
next stage value and generator state, or raising. -/
structure NLGPipeline (α : Type) where
  components : List (α → ℕ → Except PipeErr (α × ℕ))

/-- The component fold inside `NLGPipeline.run`: exceptions propagate
(`except Exception as ex: ...; raise`). -/
def pipelineGo (comps : List (α → ℕ → Except PipeErr (α × ℕ))) :
    α → ℕ → Except PipeErr α
  | args, _rng =>
    match comps with
    | [] => .ok args
    | c :: rest => do
      let (out, rng1) ← c args _rng
      pipelineGo rest out rng1

/-- Mirrors `NLGPipeline.run(initial_inputs, language, prng_seed=None)`
(`core/pipeline.py`, lines 67-82): the PRNG is `default_rng(prng_seed)`,
so its state is the stored seed when one is passed and fresh OS entropy
when `prng_seed` is `None`. -/
def NLGPipeline.run (p : NLGPipeline α) (initialInputs : α)
    (prngSeed : Option ℕ) (osEntropy : ℕ) : Except PipeErr α :=
  pipelineGo p.components initialInputs (defaultRng prngSeed osEntropy)

/-- Mirrors `EUNlgService` state relevant to `run_pipeline`: the seed
registered by `_set_seed` (`self.registry.register("seed", seed_val)`),
the two pipelines, and the `ERRORS` resource. -/
structure EUNlgService (α : Type) where
  seed : ℕ
  headlinePipeline : NLGPipeline α
  bodyPipeline : NLGPipeline α
  errors : String → String → Option String

/-- Mirrors `EUNlgService.run_pipeline` (`service.py`, lines 217-245).
The headline pipeline is run with language `language + "-head"`; any
exception degrades the headline to the raw `location`.  The body pipeline
distinguishes `NoMessagesForSelectionException` from other exceptions and
degrades to the canned per-language error strings.  Note that *neither*
call passes a `prng_seed`, so both use the Python default `None`; the
`osEntropy*` arguments model the OS entropy consumed by
`default_rng(None)` in each call. -/
def EUNlgService.runPipeline (svc : EUNlgService String)
    (language dataset location locationType : String)
    (osEntropyHead osEntropyBody : ℕ) : String × String :=
  let inputs := location ++ "|" ++ locationType ++ "|" ++ dataset
  let headline :=
    match svc.headlinePipeline.run inputs none osEntropyHead with
    | .ok h => h
    | .error _ => location
  let body :=
    match svc.bodyPipeline.run inputs none osEntropyBody with
    | .ok b => b
    | .error .noMessagesForSelection =>
      (svc.errors language "no-messages-for-selection").getD
        "Something went wrong. Please try again later"
    | .error .general =>
      (svc.errors language "general-error").getD
        "Something went wrong. Please try again later"
  (headline, body)

/-! ## Theorems -/

/-! ### C1: determinism of `run_pipeline` under a fixed seed -/

/-- A service as configured by `server.py` / `bulk_generate.py`
(seed 4551546), whose body pipeline contains one component that makes a
random choice (as `TemplateSelector` does via `random.shuffle`): its
output is determined by the generator state it receives. -/
def c1svc : EUNlgService String :=
  { seed := 4551546
    headlinePipeline := { components := [] }
    bodyPipeline := { components := [fun _ rng => .ok (toString rng, rng)] }
    errors := fun _ _ => none }

/-- C1, settled as a code bug: the seed registered by
`EUNlgService._set_seed` is never read again — `run_pipeline` invokes
`NLGPipeline.run` without a `prng_seed`, so `default_rng(None)` seeds
from OS entropy.  First conjunct: the output of `run_pipeline` is
entirely independent of the stored seed.  Second conjunct: for the
concrete seeded service `c1svc`, two invocations that differ only in the
OS entropy consumed by `default_rng(None)` produce different `(headline,
body)` pairs, refuting byte-identical repetition for a fixed seed,
dataset snapshot, language and location. -/
theorem c1_seed_never_threaded :
    (∀ (svc : EUNlgService String) (s1 s2 : ℕ)
        (language dataset location locationType : String) (eh eb : ℕ),
      EUNlgService.runPipeline { svc with seed := s1 }
          language dataset location locationType eh eb
        = EUNlgService.runPipeline { svc with seed := s2 }
          language dataset location locationType eh eb)
  ∧ EUNlgService.runPipeline c1svc "en" "cphi" "FI" "C" 0 0
      ≠ EUNlgService.runPipeline c1svc "en" "cphi" "FI" "C" 0 1 := by
  constructor
  · intro svc s1 s2 language dataset location locationType eh eb
    rfl
  · decide

/-! ### C2: the service boundary always returns a pair and degrades -/

/-- C2: `run_pipeline` is a total function returning a `(headline,
body)` pair (exceptions of the two pipeline runs are caught at this
boundary, never propagated).  If the headline pipeline raises, the
headline degrades to the raw location identifier; if it succeeds its
output is used.  If the body pipeline raises
`NoMessagesForSelectionException` or any other exception, the body
degrades to the corresponding canned per-language error string (with the
hard-coded default when the language has no entry); otherwise its output
is used. -/
theorem c2_boundary_degradation (svc : EUNlgService String)
    (language dataset location locationType : String) (eh eb : ℕ) :
    (∀ e, svc.headlinePipeline.run
        (location ++ "|" ++ locationType ++ "|" ++ dataset) none eh = .error e →
      (svc.runPipeline language dataset location locationType eh eb).1 = location)
  ∧ (∀ h, svc.headlinePipeline.run
        (location ++ "|" ++ locationType ++ "|" ++ dataset) none eh = .ok h →
      (svc.runPipeline language dataset location locationType eh eb).1 = h)
  ∧ (svc.bodyPipeline.run
        (location ++ "|" ++ locationType ++ "|" ++ dataset) none eb
        = .error .noMessagesForSelection →
      (svc.runPipeline language dataset location locationType eh eb).2
        = (svc.errors language "no-messages-for-selection").getD
            "Something went wrong. Please try again later")
  ∧ (svc.bodyPipeline.run
        (location ++ "|" ++ locationType ++ "|" ++ dataset) none eb
        = .error .general →
      (svc.runPipeline language dataset location locationType eh eb).2
        = (svc.errors language "general-error").getD
            "Something went wrong. Please try again later")
  ∧ (∀ b, svc.bodyPipeline.run
        (location ++ "|" ++ locationType ++ "|" ++ dataset) none eb = .ok b →
      (svc.runPipeline language dataset location locationType eh eb).2 = b) := by
  refine ⟨fun e he => ?_, fun h hh => ?_, fun hb => ?_, fun hb => ?_, fun b hb => ?_⟩ <;>
    simp only [EUNlgService.runPipeline] <;>
    first
      | (rw [he])
      | (rw [hh])
      | (rw [hb])

/-- A service whose headline pipeline raises and whose body pipeline
raises `NoMessagesForSelectionException`, with the English `ERRORS`
entry. -/
def c2svc : EUNlgService String :=
  { seed := 4551546
    headlinePipeline := { components := [fun _ _ => .error .general] }
    bodyPipeline := { components := [fun _ _ => .error .noMessagesForSelection] }
    errors := fun lang key =>
      if lang == "en" && key == "no-messages-for-selection" then
        some "<p>We are unable to write an article on your selection.</p>"
      else none }

/-- Witness for C2 at a concrete service and input: the headline
degrades to the location and the body to the canned English error. -/
theorem c2_boundary_degradation_witness :
    (c2svc.runPipeline "en" "cphi" "FI" "C" 0 0).1 = "FI"
  ∧ (c2svc.runPipeline "en" "cphi" "FI" "C" 0 0).2
      = "<p>We are unable to write an article on your selection.</p>" :=
  ⟨(c2_boundary_degradation c2svc "en" "cphi" "FI" "C" 0 0).1 .general rfl,
   (c2_boundary_degradation c2svc "en" "cphi" "FI" "C" 0 0).2.2.1 rfl⟩

/-! ### C6: post-selection fill failure -/

/-- A concrete fact/message and a template whose first rule rejects the
message's main fact, so that the post-selection `fill` reports no
facts. -/
def c6fact : Fact :=
  { location := "FI", locationType := "country", value := 1023/10
    valueType := "cphi:hicp2015", agent := "none", agentType := "passive"
    timestamp := .y 2020, timestampType := "year", outlierness := 1 }

def c6msg : Msg := { mid := 0, facts := [c6fact], mainFact := c6fact }

def c6template : Template :=
  { components := [Comp.lit "canned"]
    rules := [([fun _ _ => false], [])] }

/-- C6, settled as a code bug: when the post-selection `fill` of the
copied template reports no facts, `_add_template_to_message` does
substitute `DefaultTemplate("")`, but the subsequent
`message.facts = used_facts` assignment runs the `Message.facts` setter
on the empty list, whose `self._facts[0]` raises `IndexError`; the
exception propagates out of the template selector instead of the
pipeline continuing for that message. -/
theorem c6_fill_fallback_raises :
    addTemplateToMessage c6msg c6template [] = .error ()
  ∧ ∀ m : Msg, addTemplateToMessage c6msg c6template [] ≠ .ok m := by
  have h1 : addTemplateToMessage c6msg c6template [] = .error () := rfl
  exact ⟨h1, fun m h => by rw [h1] at h; exact Except.noConfusion h⟩

/-! ### C3 / C4: aggregation of adjacent messages -/

theorem combineIdxGo_shift (ss fs : List Comp) (i : ℕ) :
    combineIdxGo fs ss i = i + combineIdxGo fs ss 0 := by
  induction ss generalizing fs i with
  | nil => simp [combineIdxGo]
  | cons s ss ih =>
    cases fs with
    | nil => simp [combineIdxGo]
    | cons f fs =>
      by_cases hsame : areSame f s
      · cases ss with
        | nil => simp [combineIdxGo, hsame]
        | cons s1 ss1 =>
          simp only [combineIdxGo, hsame, Bool.not_true, Bool.false_eq_true,
            if_false]
          rw [ih fs (i + 1), ih fs 1]
          omega
      · simp [combineIdxGo, hsame]

theorem combineIdx_le (fs ss : List Comp) :
    combineIdx fs ss ≤ ss.length - 1 := by
  induction ss generalizing fs with
  | nil => simp [combineIdx, combineIdxGo]
  | cons s ss ih =>
    cases fs with
    | nil => simp [combineIdx, combineIdxGo]
    | cons f fs =>
      by_cases hsame : areSame f s
      · cases ss with
        | nil => simp [combineIdx, combineIdxGo, hsame]
        | cons s1 ss1 =>
          simp only [combineIdx, combineIdxGo, hsame, Bool.not_true,
            Bool.false_eq_true, if_false]
          rw [combineIdxGo_shift]
          have hle := ih fs
          simp only [combineIdx, List.length_cons] at hle ⊢
          omega
      · simp [combineIdx, combineIdxGo, hsame]

theorem combineIdx_same (fs ss : List Comp) (j : ℕ)
    (hj : j < combineIdx fs ss) :
    ∃ cf cs, fs.get? j = some cf ∧ ss.get? j = some cs ∧ areSame cf cs = true := by
  induction ss generalizing fs j with
  | nil => simp [combineIdx, combineIdxGo] at hj
  | cons s ss ih =>
    cases fs with
    | nil => simp [combineIdx, combineIdxGo] at hj
    | cons f fs =>
      by_cases hsame : areSame f s
      · cases ss with
        | nil => simp [combineIdx, combineIdxGo, hsame] at hj
        | cons s1 ss1 =>
          simp only [combineIdx, combineIdxGo, hsame, Bool.not_true,
            Bool.false_eq_true, if_false] at hj
          rw [combineIdxGo_shift] at hj
          cases j with
          | zero => exact ⟨f, s, rfl, rfl, hsame⟩
          | succ j1 =>
            have hj1 : j1 < combineIdx fs (s1 :: ss1) := by
              simp only [combineIdx]; omega
            obtain ⟨cf, cs, h1, h2, h3⟩ := ih fs j1 hj1
            exact ⟨cf, cs, h1, h2, h3⟩
      · simp [combineIdx, combineIdxGo, hsame] at hj

theorem combineIdx_stop (fs ss : List Comp)
    (h : combineIdx fs ss < ss.length - 1) :
    fs.length ≤ combineIdx fs ss ∨
      ∃ cf cs, fs.get? (combineIdx fs ss) = some cf ∧
        ss.get? (combineIdx fs ss) = some cs ∧ areSame cf cs = false := by
  induction ss generalizing fs with
  | nil => simp [combineIdx, combineIdxGo] at h
  | cons s ss ih =>
    cases fs with
    | nil =>
      left
      simp [combineIdx, combineIdxGo]
    | cons f fs =>
      by_cases hsame : areSame f s
      · cases ss with
        | nil => simp [combineIdx, combineIdxGo, hsame] at h
        | cons s1 ss1 =>
          have hrw : combineIdx (f :: fs) (s :: s1 :: ss1)
              = 1 + combineIdx fs (s1 :: ss1) := by
            simp only [combineIdx, combineIdxGo, hsame, Bool.not_true,
              Bool.false_eq_true, if_false]
            rw [combineIdxGo_shift]
          rw [hrw] at h ⊢
          have hlt : combineIdx fs (s1 :: ss1) < (s1 :: ss1).length - 1 := by
            simp only [List.length_cons] at h ⊢
            omega
          rcases ih fs hlt with hl | ⟨cf, cs, h1, h2, h3⟩
          · left; simp only [List.length_cons]; omega
          · right
            refine ⟨cf, cs, ?_, ?_, h3⟩
            · simpa [Nat.add_comm] using h1
            · simpa [Nat.add_comm] using h2
      · right
        refine ⟨f, s, ?_, ?_, by simpa using hsame⟩ <;>
          simp [combineIdx, combineIdxGo, hsame]

/-- Concrete inputs refuting C4 as stated: two adjacent messages with
literal templates `[A, B]` and `[A, C]` and opposite polarities. -/
def c4conjs : ConjDict := { defaultCombiner := "and", inverseCombiner := "but" }

def c4fact : Fact :=
  { location := "FI", locationType := "country", value := 5
    valueType := "cphi:hicp2015", agent := "none", agentType := "passive"
    timestamp := .y 2020, timestampType := "year", outlierness := 1 }

def c4m1 : Msg :=
  { mid := 1, facts := [c4fact], mainFact := c4fact, polarity := 1
    template := some { components := [Comp.lit "A", Comp.lit "B"] } }

def c4m2 : Msg :=
  { mid := 2, facts := [c4fact], mainFact := c4fact, polarity := -1
    template := some { components := [Comp.lit "A", Comp.lit "C"] } }

/-- C4 counterexample: the claim predicts the merged template
`[A, "but", C]` (common prefix, inverse combiner for disagreeing
polarities, second message's trailing components); the code instead
keeps all of the first message's components and always emits the default
combiner, producing `[A, B, "and", C]`. -/
theorem c4_counterexample :
    c4m1.polarity ≠ c4m2.polarity
  ∧ ((combine c4conjs c4m1 c4m2).template.map Template.components)
      = some [Comp.lit "A", Comp.lit "B", Comp.lit "and", Comp.lit "C"]
  ∧ ((combine c4conjs c4m1 c4m2).template.map Template.components)
      ≠ some [Comp.lit "A", Comp.lit "but", Comp.lit "C"] := by
  refine ⟨by decide, rfl, by decide⟩

/-- C4 amended: whenever the aggregator combines two adjacent messages
(`_combine`), the merged template consists of *all* of the first
message's components, then exactly one conjunction literal which is
always the language's `default_combiner` (the source compares
`first.polarity != first.polarity`, which never holds, so the inverse
combiner is unreachable), then the second message's components from the
first divergence index on (capped at the last component when no
divergence occurs in range); the merged message carries the deduplicated
union of facts and is marked `prevent_aggregation`. -/
theorem c4_combine_structure (conjs : ConjDict) (first second : Msg)
    (t1 t2 : Template) (h1 : first.template = some t1)
    (h2 : second.template = some t2) :
    ∃ d tc,
      (combine conjs first second).template = some tc
      ∧ tc.components
          = t1.components ++ [Comp.lit conjs.defaultCombiner]
              ++ t2.components.drop d
      ∧ d ≤ t2.components.length - 1
      ∧ (∀ j, j < d →
          ∃ cf cs, t1.components.get? j = some cf
            ∧ t2.components.get? j = some cs ∧ areSame cf cs = true)
      ∧ (d < t2.components.length - 1 →
          t1.components.length ≤ d ∨
            ∃ cf cs, t1.components.get? d = some cf
              ∧ t2.components.get? d = some cs ∧ areSame cf cs = false)
      ∧ (combine conjs first second).preventAggregation = true
      ∧ (combine conjs first second).facts
          = first.facts ++ second.facts.filter (fun f => f ∉ first.facts) := by
  have hc : (combine conjs first second).template
      = some { components := t1.components ++ [Comp.lit conjs.defaultCombiner]
          ++ t2.components.drop (combineIdx t1.components t2.components) } := by
    simp [combine, h1, h2]
  refine ⟨combineIdx t1.components t2.components, _, hc, rfl,
    combineIdx_le _ _, fun j hj => combineIdx_same _ _ j hj,
    combineIdx_stop _ _, rfl, rfl⟩

/-- Witness for the amended C4 at the counterexample inputs. -/
theorem c4_combine_structure_witness :
    ∃ d tc,
      (combine c4conjs c4m1 c4m2).template = some tc
      ∧ tc.components
          = [Comp.lit "A", Comp.lit "B"] ++ [Comp.lit "and"]
              ++ [Comp.lit "A", Comp.lit "C"].drop d
      ∧ d ≤ ([Comp.lit "A", Comp.lit "C"] : List Comp).length - 1
      ∧ (∀ j, j < d →
          ∃ cf cs, ([Comp.lit "A", Comp.lit "B"] : List Comp).get? j = some cf
            ∧ ([Comp.lit "A", Comp.lit "C"] : List Comp).get? j = some cs
            ∧ areSame cf cs = true)
      ∧ (d < ([Comp.lit "A", Comp.lit "C"] : List Comp).length - 1 →
          ([Comp.lit "A", Comp.lit "B"] : List Comp).length ≤ d ∨
            ∃ cf cs, ([Comp.lit "A", Comp.lit "B"] : List Comp).get? d = some cf
              ∧ ([Comp.lit "A", Comp.lit "C"] : List Comp).get? d = some cs
              ∧ areSame cf cs = false)
      ∧ (combine c4conjs c4m1 c4m2).preventAggregation = true
      ∧ (combine c4conjs c4m1 c4m2).facts
          = c4m1.facts ++ c4m2.facts.filter (fun f => f ∉ c4m1.facts) :=
  c4_combine_structure c4conjs c4m1 c4m2 _ _ rfl rfl

/-- C3: for adjacent sibling messages under a SEQUENCE node that share a
template prefix and are not aggregation-prevented, the implicit-time
policy of `_aggregate_sequence` (`core/aggregator.py`, lines 85-95):
if the previous message has an explicit `time` slot and the current one
does not, they are merged with the order swapped (the current message's
components come first in the combined template); if the previous has no
`time` slot and the current has one, they are not merged and the current
message is kept as a separate child. -/
theorem c3_implicit_time_cases (conjs : ConjDict) (acc : List DPNode)
    (prev curr : Msg) (hlast : acc.getLast? = some (.msg prev))
    (hp : prev.preventAggregation = false)
    (hc : curr.preventAggregation = false)
    (hsp : samePrefixB prev curr = .ok true) :
    (hasImplicitTime prev = false → hasImplicitTime curr = true →
      aggStep conjs acc curr
          = .ok (acc.dropLast ++ [.msg (combine conjs curr prev)])
      ∧ ∀ t, curr.template = some t →
          ∃ tc rest, (combine conjs curr prev).template = some tc
            ∧ tc.components = t.components ++ rest)
  ∧ (hasImplicitTime prev = true → hasImplicitTime curr = false →
      aggStep conjs acc curr = .ok (acc ++ [.msg curr])) := by
  constructor
  · intro hpe hci
    constructor
    · simp only [aggStep, hlast, hp, hc, hsp, hpe, hci, Bool.or_self,
        Bool.false_eq_true, if_false, Bool.not_false, Bool.and_self]
      rfl
    · intro t ht
      obtain ⟨d, tc, h1, h2, -⟩ :=
        c4_combine_structure conjs curr prev t
          ((prev.template).getD emptyTemplate) ht (by
            cases hpt : prev.template with
            | none => simp [samePrefixB, ht, hpt] at hsp
            | some tp => simp [hpt])
      exact ⟨tc, _, h1, by simpa using h2⟩
  · intro hpi hce
    simp only [aggStep, hlast, hp, hc, hsp, hpi, hce, Bool.or_self,
      Bool.false_eq_true, if_false]
    rfl

/-- Concrete messages for the C3 witness: shared literal prefix, the
explicit-time one carrying a `time` slot. -/
def c3conjs : ConjDict := { defaultCombiner := "and", inverseCombiner := "but" }

def c3fact : Fact :=
  { location := "FI", locationType := "country", value := 7
    valueType := "cphi:hicp2015", agent := "none", agentType := "passive"
    timestamp := .y 2020, timestampType := "year", outlierness := 1 }

/-- Explicit-time message (its template has a `time` slot). -/
def c3explicit : Msg :=
  { mid := 11, facts := [c3fact], mainFact := c3fact
    template := some { components :=
      [Comp.lit "shared",
       Comp.slotC { src := .time, attributes := [], fact := some c3fact }] } }

/-- Implicit-time message (no `time` slot). -/
def c3implicit : Msg :=
  { mid := 12, facts := [c3fact], mainFact := c3fact
    template := some { components := [Comp.lit "shared", Comp.lit "x"] } }

/-- Witness for C3 at concrete inputs, exercising both branches:
explicit-then-implicit merges with swapped order, implicit-then-explicit
appends the current message unmerged. -/
theorem c3_implicit_time_cases_witness :
    (aggStep c3conjs [DPNode.msg c3explicit] c3implicit
        = .ok ([DPNode.msg c3explicit].dropLast
            ++ [.msg (combine c3conjs c3implicit c3explicit)])
      ∧ ∀ t, c3implicit.template = some t →
          ∃ tc rest, (combine c3conjs c3implicit c3explicit).template = some tc
            ∧ tc.components = t.components ++ rest)
  ∧ aggStep c3conjs [DPNode.msg c3implicit] c3explicit
      = .ok ([DPNode.msg c3implicit] ++ [.msg c3explicit]) :=
  ⟨(c3_implicit_time_cases c3conjs [DPNode.msg c3explicit] c3explicit c3implicit
      rfl rfl rfl rfl).1 rfl rfl,
   (c3_implicit_time_cases c3conjs [DPNode.msg c3implicit] c3implicit c3explicit
      rfl rfl rfl rfl).2 rfl rfl⟩

/-! ### C5: template matching soundness -/

/-- Component list `comps'` differs from `comps` only by binding some
slot components to facts drawn from `facts`. -/
@[reducible]
def ReboundBy (comps comps' : List Comp) (facts : List Fact) : Prop :=
  ∀ (i : ℕ) (s' : Slot), comps'[i]? = some (Comp.slotC s') →
    comps[i]? = some (Comp.slotC s') ∨
      ∃ (s0 : Slot) (fct : Fact), comps[i]? = some (Comp.slotC s0) ∧ fct ∈ facts
        ∧ s' = { s0 with fact := some fct }

theorem reboundBy_refl (comps : List Comp) (facts : List Fact) :
    ReboundBy comps comps facts := fun _ _ h => .inl h

theorem reboundBy_trans {a b c : List Comp} {facts : List Fact}
    (h1 : ReboundBy a b facts) (h2 : ReboundBy b c facts) :
    ReboundBy a c facts := by
  intro i s' hc
  rcases h2 i s' hc with hb | ⟨s0, fct, hb, hf, hs⟩
  · exact h1 i s' hb
  · rcases h1 i s0 hb with ha | ⟨s00, fct0, ha, hf0, hs0⟩
    · exact .inr ⟨s0, fct, ha, hf, hs⟩
    · refine .inr ⟨s00, fct, ha, hf, ?_⟩
      subst hs hs0
      rfl

theorem reboundBy_mono {a b : List Comp} {facts facts' : List Fact}
    (hsub : ∀ f ∈ facts, f ∈ facts') (h : ReboundBy a b facts) :
    ReboundBy a b facts' := by
  intro i s' hb
  rcases h i s' hb with h1 | ⟨s0, fct, h1, h2, h3⟩
  · exact .inl h1
  · exact .inr ⟨s0, fct, h1, hsub fct h2, h3⟩

theorem bindStep_rebound (comps : List Comp) (i : ℕ) (f : Fact)
    (facts : List Fact) (hf : f ∈ facts) :
    ReboundBy comps (bindStep f comps i) facts := by
  unfold bindStep
  cases hci : comps[i]? with
  | none => exact reboundBy_refl comps facts
  | some c =>
    cases c with
    | lit v => exact reboundBy_refl comps facts
    | slotC s =>
      intro j s' hj
      obtain ⟨hlen, -⟩ := List.getElem?_eq_some.mp hci
      by_cases hij : i = j
      · subst hij
        rw [List.getElem?_set_self hlen] at hj
        have hs' := Option.some.inj hj
        exact .inr ⟨s, f, hci, hf, (Comp.slotC.inj hs').symm⟩
      · rw [List.getElem?_set_ne hij] at hj
        exact .inl hj

theorem bindSlots_rebound (comps : List Comp) (idxs : List ℕ) (f : Fact)
    (facts : List Fact) (hf : f ∈ facts) :
    ReboundBy comps (bindSlots comps idxs f) facts := by
  induction idxs generalizing comps with
  | nil => exact reboundBy_refl _ _
  | cons i idxs ih =>
    have heq : bindSlots comps (i :: idxs) f
        = bindSlots (bindStep f comps i) idxs f := rfl
    rw [heq]
    exact reboundBy_trans (bindStep_rebound comps i f facts hf) (ih _)

theorem checkGo_noFill (pool : List Msg) (rules : List Rule)
    (used : List Fact) (comps : List Comp) :
    (checkGo pool rules used comps false).2 = comps := by
  induction rules generalizing used comps with
  | nil => rfl
  | cons r rest ih =>
    obtain ⟨matchers, idxs⟩ := r
    cases hfind : pool.find? fun m => matchersAll matchers m.mainFact used with
    | none => simp [checkGo, hfind]
    | some m => simpa [checkGo, hfind] using ih _ _

theorem checkGo_fst_indep (pool : List Msg) (rules : List Rule)
    (used : List Fact) (comps comps' : List Comp) (fill fill' : Bool) :
    (checkGo pool rules used comps fill).1
      = (checkGo pool rules used comps' fill').1 := by
  induction rules generalizing used comps comps' with
  | nil => rfl
  | cons r rest ih =>
    obtain ⟨matchers, idxs⟩ := r
    cases hfind : pool.find? fun m => matchersAll matchers m.mainFact used with
    | none => simp [checkGo, hfind]
    | some m => simpa [checkGo, hfind] using ih _ _ _

theorem checkGo_ne_nil_iff (pool : List Msg) (rules : List Rule)
    (used : List Fact) (comps : List Comp) (fill : Bool) (hu : used ≠ []) :
    ((checkGo pool rules used comps fill).1 ≠ []
      ↔ rulesSat pool rules used = true) := by
  induction rules generalizing used comps with
  | nil => simpa [checkGo, rulesSat] using hu
  | cons r rest ih =>
    obtain ⟨matchers, idxs⟩ := r
    cases hfind : pool.find? fun m => matchersAll matchers m.mainFact used with
    | none => simp [checkGo, hfind, rulesSat]
    | some m =>
      have hu1 : (if m.mainFact ∈ used then used else used ++ [m.mainFact]) ≠ [] := by
        by_cases hmem : m.mainFact ∈ used <;> simp [hmem, hu]
      simpa [checkGo, hfind, rulesSat] using ih _ _ hu1

theorem checkGo_sub (pool : List Msg) (rules : List Rule)
    (used : List Fact) (comps : List Comp) (fill : Bool)
    (hne : (checkGo pool rules used comps fill).1 ≠ []) :
    ∀ f ∈ used, f ∈ (checkGo pool rules used comps fill).1 := by
  induction rules generalizing used comps with
  | nil => simp [checkGo]
  | cons r rest ih =>
    obtain ⟨matchers, idxs⟩ := r
    cases hfind : pool.find? fun m => matchersAll matchers m.mainFact used with
    | none => simp [checkGo, hfind] at hne
    | some m =>
      intro f hf
      have hmem : f ∈ (if m.mainFact ∈ used then used else used ++ [m.mainFact]) := by
        by_cases hm : m.mainFact ∈ used <;> simp [hm, hf]
      have hne1 := hne
      simp only [checkGo, hfind] at hne1 ⊢
      exact ih _ _ hne1 f hmem

theorem checkGo_rebound (pool : List Msg) (rules : List Rule)
    (used : List Fact) (comps : List Comp)
    (hne : (checkGo pool rules used comps true).1 ≠ []) :
    ReboundBy comps (checkGo pool rules used comps true).2
      (checkGo pool rules used comps true).1 := by
  induction rules generalizing used comps with
  | nil => exact reboundBy_refl _ _
  | cons r rest ih =>
    obtain ⟨matchers, idxs⟩ := r
    cases hfind : pool.find? fun m => matchersAll matchers m.mainFact used with
    | none => simp [checkGo, hfind] at hne
    | some m =>
      have hne1 := hne
      simp only [checkGo, hfind, if_pos] at hne1 ⊢
      have hused1 : m.mainFact
          ∈ (if m.mainFact ∈ used then used else used ++ [m.mainFact]) := by
        by_cases hm : m.mainFact ∈ used <;> simp [hm]
      have hfinal : m.mainFact ∈ (checkGo pool rest
          (if m.mainFact ∈ used then used else used ++ [m.mainFact])
          (bindSlots comps idxs m.mainFact) true).1 :=
        checkGo_sub pool rest _ _ true hne1 _ hused1
      exact reboundBy_trans
        (bindSlots_rebound comps idxs m.mainFact _ hfinal) (ih _ _ hne1)

/-- C5 amended: `Template.check` returns a non-empty fact list iff the
first rule matches the primary message's main fact and every subsequent
rule is matched by some pool message (tried in order, consumed facts
reused by identity); with `fill_slots` left `False` it leaves the
template untouched; `fill` reports exactly the same fact list; and *when
the check succeeds*, `fill` rebinds slots only to facts of the reported
list and records that list as the template's facts.  (On a failing
check, `fill` may leave earlier rules' slots bound while reporting no
facts — see the counterexample.) -/
theorem c5_check_soundness (t : Template) (primary : Msg) (pool : List Msg)
    (hr : t.rules ≠ []) :
    ((t.check primary pool false).1 ≠ [] ↔ templateUsable t primary pool = true)
  ∧ (t.check primary pool false).2 = t
  ∧ (t.check primary pool true).1 = (t.check primary pool false).1
  ∧ ((t.check primary pool true).1 ≠ [] →
      ReboundBy t.components (t.check primary pool true).2.components
        (t.check primary pool true).1
      ∧ (t.check primary pool true).2.facts = (t.check primary pool true).1
      ∧ (t.check primary pool true).2.rules = t.rules) := by
  obtain ⟨comps, rules, tfacts⟩ := t
  cases rules with
  | nil => exact absurd rfl hr
  | cons r rest =>
  obtain ⟨m0, idxs0⟩ := r
  by_cases h0 : matchersAll m0 primary.mainFact [] = true
  · have hA2 := checkGo_noFill pool rest [primary.mainFact] comps
    have hCF : Template.check ⟨comps, (m0, idxs0) :: rest, tfacts⟩ primary pool false
        = ((checkGo pool rest [primary.mainFact] comps false).1,
            ⟨comps, (m0, idxs0) :: rest, tfacts⟩) := by
      simp only [Template.check, h0, if_true, Bool.false_eq_true, if_false]
      split <;> rw [hA2]
    have hCT : Template.check ⟨comps, (m0, idxs0) :: rest, tfacts⟩ primary pool true
        = (let B := checkGo pool rest [primary.mainFact]
              (bindSlots comps idxs0 primary.mainFact) true
           if B.1 = [] then (B.1, ⟨B.2, (m0, idxs0) :: rest, tfacts⟩)
           else (B.1, ⟨B.2, (m0, idxs0) :: rest, B.1⟩)) := by
      simp only [Template.check, h0, if_true]
    have hfst : (checkGo pool rest [primary.mainFact]
          (bindSlots comps idxs0 primary.mainFact) true).1
        = (checkGo pool rest [primary.mainFact] comps false).1 :=
      checkGo_fst_indep pool rest [primary.mainFact] _ _ true false
    refine ⟨?_, by rw [hCF], ?_, ?_⟩
    · rw [hCF]
      have hiff := checkGo_ne_nil_iff pool rest [primary.mainFact] comps false (by simp)
      simp only [templateUsable, h0, Bool.true_and]
      exact hiff
    · rw [hCF, hCT]
      simp only
      split <;> simp [hfst]
    · intro hne
      rw [hCT] at hne ⊢
      simp only at hne ⊢
      have hBne : (checkGo pool rest [primary.mainFact]
          (bindSlots comps idxs0 primary.mainFact) true).1 ≠ [] := by
        intro hnil
        rw [if_pos hnil] at hne
        exact hne hnil
      rw [if_neg hBne] at hne ⊢
      have hpf : primary.mainFact ∈ (checkGo pool rest [primary.mainFact]
          (bindSlots comps idxs0 primary.mainFact) true).1 :=
        checkGo_sub pool rest _ _ true hBne primary.mainFact (by simp)
      refine ⟨?_, rfl, rfl⟩
      exact reboundBy_trans
        (bindSlots_rebound comps idxs0 primary.mainFact _ hpf)
        (checkGo_rebound pool rest _ _ hBne)
  · have hCB : ∀ b, Template.check ⟨comps, (m0, idxs0) :: rest, tfacts⟩ primary pool b
        = ([], ⟨comps, (m0, idxs0) :: rest, tfacts⟩) := by
      intro b
      simp only [Template.check, h0, Bool.false_eq_true, if_false]
    refine ⟨?_, by rw [hCB], by rw [hCB, hCB], ?_⟩
    · rw [hCB]
      simp [templateUsable, h0]
    · rw [hCB]
      simp

/-- Concrete inputs refuting the unconditional binding clause of C5: a
template whose first rule matches (binding slot 0 to the primary fact)
but whose second rule matches nothing. -/
def c5fact : Fact :=
  { location := "FI", locationType := "country", value := 3
    valueType := "cphi:hicp2015", agent := "none", agentType := "passive"
    timestamp := .y 2020, timestampType := "year", outlierness := 1 }

def c5m : Msg := { mid := 21, facts := [c5fact], mainFact := c5fact }

def c5t : Template :=
  { components := [Comp.slotC { src := .field "location", attributes := [], fact := none }]
    rules := [([fun _ _ => true], [0]), ([fun _ _ => false], [])] }

/-- C5 counterexample: with `fill_slots=True` and a failing later rule,
`check` reports no facts (`[]`) yet has already bound the first rule's
slot, so `fill` does not bind "exactly the facts that check reports". -/
theorem c5_counterexample :
    (c5t.fill c5m []).1 = []
  ∧ (c5t.fill c5m []).2.components ≠ c5t.components
  ∧ (c5t.fill c5m []).2.components
      = [Comp.slotC { src := .field "location", attributes := [], fact := some c5fact }] := by
  refine ⟨rfl, by decide, rfl⟩

/-- A template whose two rules are both satisfiable, for the C5 witness. -/
def c5wfact2 : Fact :=
  { location := "SE", locationType := "country", value := 4
    valueType := "cphi:hicp2015", agent := "none", agentType := "passive"
    timestamp := .y 2020, timestampType := "year", outlierness := 1 }

def c5wm2 : Msg := { mid := 22, facts := [c5wfact2], mainFact := c5wfact2 }

def c5wt : Template :=
  { components :=
      [Comp.slotC { src := .field "location", attributes := [], fact := none },
       Comp.slotC { src := .field "value", attributes := [], fact := none }]
    rules := [([fun f _ => f.location == "FI"], [0]),
              ([fun f _ => f.location == "SE"], [1])] }

/-- Witness for the amended C5 at a concrete template, primary message
and pool. -/
theorem c5_check_soundness_witness :
    ((c5wt.check c5m [c5wm2] false).1 ≠ []
        ↔ templateUsable c5wt c5m [c5wm2] = true)
  ∧ (c5wt.check c5m [c5wm2] false).2 = c5wt
  ∧ (c5wt.check c5m [c5wm2] true).1 = (c5wt.check c5m [c5wm2] false).1
  ∧ ((c5wt.check c5m [c5wm2] true).1 ≠ [] →
      ReboundBy c5wt.components (c5wt.check c5m [c5wm2] true).2.components
        (c5wt.check c5m [c5wm2] true).1
      ∧ (c5wt.check c5m [c5wm2] true).2.facts = (c5wt.check c5m [c5wm2] true).1
      ∧ (c5wt.check c5m [c5wm2] true).2.rules = c5wt.rules) :=
  c5_check_soundness c5wt c5m [c5wm2] (by simp [c5wt])

/-! ### C7: the paragraph loop is bounded by MAX_PARAGRAPHS -/

theorem pickTopScore_some (pool : List Msg) (n : Msg) (s : ℚ)
    (h : pickTopScore pool = (some n, s)) : n ∈ pool ∧ s = n.score := by
  unfold pickTopScore at h
  cases hsort : sortStable byScoreDesc pool with
  | nil =>
    rw [hsort] at h
    simp at h
  | cons x xs =>
    rw [hsort] at h
    simp only [Prod.mk.injEq] at h
    obtain ⟨hx, hs⟩ := h
    obtain rfl := Option.some.inj hx
    have hx' : x ∈ sortStable byScoreDesc pool := by
      rw [hsort]
      exact List.mem_cons_self _ _
    exact ⟨(mem_sortStable byScoreDesc x pool).mp hx', hs.symm⟩

theorem selectNextNucleus_some (avail sel : List Msg) (n : Msg) (s : ℚ)
    (h : selectNextNucleus avail sel = (some n, s)) :
    sel.length < MAX_PARAGRAPHS ∧ n ∈ avail ∧ s = n.score := by
  by_cases hmax : MAX_PARAGRAPHS ≤ sel.length
  · simp only [selectNextNucleus, if_pos hmax] at h
    simp at h
  · simp only [selectNextNucleus, if_neg hmax] at h
    refine ⟨by omega, ?_⟩
    split at h
    · split at h
      · simp at h
      · split at h
        · exact pickTopScore_some _ _ _ h
        · simp at h
    · have hm := pickTopScore_some _ _ _ h
      exact ⟨List.mem_of_mem_filter hm.1, hm.2⟩

theorem bodyLoopFuel_bounded (fuel : ℕ) :
    ∀ (core exp sel : List Msg) (ps : List (List Msg)),
      MAX_PARAGRAPHS + 1 ≤ fuel + sel.length →
      sel.length ≤ MAX_PARAGRAPHS →
      ps.length = sel.length →
      bodyLoopFuel fuel core exp sel ps ≠ .error .outOfFuel
      ∧ ∀ out, bodyLoopFuel fuel core exp sel ps = .ok out →
          out.length ≤ MAX_PARAGRAPHS := by
  induction fuel with
  | zero =>
    intro core exp sel ps hfuel hsel hps
    exact absurd hfuel (by simp only [MAX_PARAGRAPHS] at hsel ⊢; omega)
  | succ fuel ih =>
    intro core exp sel ps hfuel hsel hps
    simp only [bodyLoopFuel]
    split
    · -- no nucleus: the loop returns (or raises noNuclei)
      refine ⟨?_, ?_⟩
      · intro hc
        split at hc <;> simp at hc
      · intro out hout
        split at hout
        · simp at hout
        · obtain rfl := Except.ok.inj hout
          omega
    · next nucleus heq =>
      have hpair : selectNextNucleus core sel
          = (some nucleus, (selectNextNucleus core sel).2) := by
        rw [← heq]
      have hlt := (selectNextNucleus_some core sel nucleus _ hpair).1
      split
      · -- below a threshold: the loop returns (or raises noNuclei)
        refine ⟨?_, ?_⟩
        · intro hc
          split at hc <;> simp at hc
        · intro out hout
          split at hout
          · simp at hout
          · obtain rfl := Except.ok.inj hout
            omega
      · -- a new paragraph is emitted and the loop continues
        apply ih
        · simp only [List.length_append, List.length_cons, List.length_nil]
          omega
        · simp only [List.length_append, List.length_cons, List.length_nil]
          omega
        · simp only [List.length_append, List.length_cons, List.length_nil]
          omega

/-- C7: the body planner's paragraph loop terminates within
`MAX_PARAGRAPHS + 1` iterations (the fuelled embedding never exhausts
its fuel, i.e. the Python `while True` loop always exits), and every
produced document plan has at most `MAX_PARAGRAPHS` (= 3) paragraph
nodes: `_select_next_nucleus` stops returning nuclei once that many have
been selected. -/
theorem c7_paragraph_loop_bounded :
    (∀ core exp : List Msg, bodyRun core exp ≠ .error .outOfFuel)
  ∧ ∀ (core exp : List Msg) (ps : List (List Msg)) (rest : List Msg),
      bodyRun core exp = .ok (ps, rest) → ps.length ≤ MAX_PARAGRAPHS := by
  constructor
  · intro core exp hcontra
    unfold bodyRun at hcontra
    cases hb : bodyLoopFuel (MAX_PARAGRAPHS + 1) core exp [] [] with
    | error e =>
      rw [hb] at hcontra
      obtain rfl : e = .outOfFuel := by
        simpa [Except.map] using hcontra
      exact (bodyLoopFuel_bounded (MAX_PARAGRAPHS + 1) core exp [] []
        (by simp) (by simp) rfl).1 hb
    | ok out => rw [hb] at hcontra; simp [Except.map] at hcontra
  · intro core exp ps rest hrun
    unfold bodyRun at hrun
    cases hb : bodyLoopFuel (MAX_PARAGRAPHS + 1) core exp [] [] with
    | error e => rw [hb] at hrun; simp [Except.map] at hrun
    | ok out =>
      rw [hb] at hrun
      obtain ⟨rfl, -⟩ : out = ps ∧ core ++ exp = rest := by
        simpa [Except.map, Prod.ext_iff] using hrun
      exact (bodyLoopFuel_bounded (MAX_PARAGRAPHS + 1) core exp [] []
        (by simp) (by simp) rfl).2 out hb

/-- A single high-scoring message for the C7 witness. -/
def c7fact : Fact :=
  { location := "FI", locationType := "country", value := 1
    valueType := "cphi:hicp2015", agent := "none", agentType := "passive"
    timestamp := .y 2020, timestampType := "year", outlierness := 1 }

def c7msg : Msg :=
  { mid := 31, facts := [c7fact], mainFact := c7fact, score := 1 }

/-- Witness for C7: a concrete run of the body planner produces one
paragraph, within the bound. -/
theorem c7_paragraph_loop_bounded_witness :
    bodyRun [c7msg] [] = .ok ([[c7msg]], [c7msg])
  ∧ ([[c7msg]] : List (List Msg)).length ≤ MAX_PARAGRAPHS := by
  have hrun : bodyRun [c7msg] [] = .ok ([[c7msg]], [c7msg]) := by
    with_unfolding_all rfl
  exact ⟨hrun, c7_paragraph_loop_bounded.2 [c7msg] [] [[c7msg]] [c7msg] hrun⟩

/-! ### C8: no message is placed twice in a document plan -/

theorem midsOf_append (a b : List Msg) :
    midsOf (a ++ b) = midsOf a ++ midsOf b := List.map_append _ _ _

theorem memMsg_iff (l : List Msg) (m : Msg) :
    memMsg l m = true ↔ m.mid ∈ midsOf l := by
  simp only [memMsg, msgEq, List.any_eq_true, beq_iff_eq, midsOf, List.mem_map]

theorem mem_removeMsg (l : List Msg) (m x : Msg) :
    x ∈ removeMsg l m ↔ x ∈ l ∧ x.mid ≠ m.mid := by
  simp only [removeMsg, List.mem_filter, msgEq, Bool.not_eq_true', beq_eq_false_iff_ne,
    ne_eq]

theorem not_mem_mids_removeMsg (l : List Msg) (m : Msg) :
    m.mid ∉ midsOf (removeMsg l m) := by
  simp only [midsOf, List.mem_map, not_exists, not_and]
  intro x hx
  exact ((mem_removeMsg l m x).mp hx).2

theorem midsOf_removeMsg_sub (l : List Msg) (m : Msg) :
    ∀ a ∈ midsOf (removeMsg l m), a ∈ midsOf l := by
  intro a ha
  simp only [midsOf, List.mem_map] at ha ⊢
  obtain ⟨x, hx, rfl⟩ := ha
  exact ⟨x, ((mem_removeMsg l m x).mp hx).1, rfl⟩

theorem midsOf_filter_sub (l : List Msg) (p : Msg → Bool) :
    ∀ a ∈ midsOf (l.filter p), a ∈ midsOf l := by
  intro a ha
  simp only [midsOf, List.mem_map] at ha ⊢
  obtain ⟨x, hx, rfl⟩ := ha
  exact ⟨x, List.mem_of_mem_filter hx, rfl⟩

theorem nodup_midsOf_filter (l : List Msg) (p : Msg → Bool)
    (h : (midsOf l).Nodup) : (midsOf (l.filter p)).Nodup :=
  ((List.filter_sublist l).map Msg.mid).nodup h

theorem mem_snd_weighContext (l : List (ℚ × Msg)) (prev : Msg)
    (p : ℚ × Msg) (hp : p ∈ weighByContextSimilarity l prev) :
    p.2 ∈ l.map Prod.snd := by
  simp only [weighByContextSimilarity, List.mem_map] at hp
  obtain ⟨q, hq, hpq⟩ := hp
  have : p.2 = q.2 := by
    rw [← hpq]
    split <;> rfl
  rw [this]
  exact List.mem_map_of_mem _ hq

theorem prefixRoundsGo_snd_sub (fragments : List String) (fcs : List ℕ)
    (n : ℕ) (msgs : List (ℚ × Msg)) :
    (∀ p ∈ (prefixRoundsGo fragments fcs n msgs).1, p.2 ∈ msgs.map Prod.snd)
  ∧ (∀ p ∈ (prefixRoundsGo fragments fcs n msgs).2, p.2 ∈ msgs.map Prod.snd) := by
  induction fcs generalizing n msgs with
  | nil =>
    refine ⟨by simp [prefixRoundsGo], ?_⟩
    intro p hp
    simp only [prefixRoundsGo] at hp
    exact List.mem_map_of_mem _ hp
  | cons fc rest ih =>
    simp only [prefixRoundsGo]
    constructor
    · intro p hp
      rw [List.mem_append] at hp
      rcases hp with hp | hp
      · simp only [List.mem_map, List.mem_filter] at hp
        obtain ⟨q, ⟨hq, -⟩, hpq⟩ := hp
        have : p.2 = q.2 := by rw [← hpq]
        rw [this]
        exact List.mem_map_of_mem _ hq
      · have := (ih (n + 1) _).1 p hp
        simp only [List.mem_map, List.mem_filter] at this ⊢
        obtain ⟨q, ⟨hq, -⟩, hpq⟩ := this
        exact ⟨q, hq, hpq⟩
    · intro p hp
      have := (ih (n + 1) _).2 p hp
      simp only [List.mem_map, List.mem_filter] at this ⊢
      obtain ⟨q, ⟨hq, -⟩, hpq⟩ := this
      exact ⟨q, hq, hpq⟩

theorem mem_snd_weighAnalysis (l : List (ℚ × Msg)) (prev : Msg)
    (p : ℚ × Msg) (hp : p ∈ weighByAnalysisSimilarity l prev) :
    p.2 ∈ l.map Prod.snd := by
  simp only [weighByAnalysisSimilarity, List.mem_append] at hp
  rcases hp with (hp | hp) | hp
  · simp only [List.mem_map, List.mem_filter] at hp
    obtain ⟨q, ⟨hq, -⟩, hpq⟩ := hp
    have : p.2 = q.2 := by rw [← hpq]
    rw [this]
    exact List.mem_map_of_mem _ hq
  · have := (prefixRoundsGo_snd_sub _ _ 0 _).1 p hp
    simp only [List.mem_map, List.mem_filter] at this ⊢
    obtain ⟨q, ⟨hq, -⟩, hpq⟩ := this
    exact ⟨q, hq, hpq⟩
  · simp only [List.mem_map] at hp
    obtain ⟨q, hq, hpq⟩ := hp
    have := (prefixRoundsGo_snd_sub _ _ 0 _).2 q hq
    simp only [List.mem_map, List.mem_filter] at this ⊢
    obtain ⟨r, ⟨hr, -⟩, hqr⟩ := this
    refine ⟨r, hr, ?_⟩
    rw [hqr, ← hpq]

theorem pickTopPair_mem (pool : List (ℚ × Msg)) (m : Msg)
    (h : pickTopPair pool = some m) : m ∈ pool.map Prod.snd := by
  unfold pickTopPair at h
  cases hsort : sortStable byFstDesc pool with
  | nil => rw [hsort] at h; simp at h
  | cons p ps =>
    rw [hsort] at h
    obtain rfl := Option.some.inj h
    have hp : p ∈ sortStable byFstDesc pool := by
      rw [hsort]; exact List.mem_cons_self _ _
    exact List.mem_map_of_mem _ ((mem_sortStable byFstDesc p pool).mp hp)

theorem mem_snd_map_of_snd_preserving (f : ℚ × Msg → ℚ × Msg)
    (l : List (ℚ × Msg)) (m : Msg)
    (h : m ∈ (l.map f).map Prod.snd) (hf : ∀ p, (f p).2 = p.2) :
    m ∈ l.map Prod.snd := by
  rw [List.map_map] at h
  simp only [List.mem_map, Function.comp_apply] at h ⊢
  obtain ⟨p, hp, hpm⟩ := h
  exact ⟨p, hp, by rw [← hpm, hf]⟩

theorem mem_snd_filter (q : ℚ × Msg → Bool) (l : List (ℚ × Msg)) (m : Msg)
    (h : m ∈ (l.filter q).map Prod.snd) : m ∈ l.map Prod.snd := by
  simp only [List.mem_map] at h ⊢
  obtain ⟨p, hp, hpm⟩ := h
  exact ⟨p, List.mem_of_mem_filter hp, hpm⟩

theorem snd_mem_chain (scoredAvail : List (ℚ × Msg)) (prevM : Msg) (sat : Msg)
    (h : sat ∈ (weighByContextSimilarity
        (weighByAnalysisSimilarity scoredAvail prevM) prevM).map Prod.snd) :
    sat ∈ scoredAvail.map Prod.snd := by
  simp only [List.mem_map] at h
  obtain ⟨p, hp, rfl⟩ := h
  have h1 := mem_snd_weighContext _ _ p hp
  simp only [List.mem_map] at h1
  obtain ⟨q, hq, hq2⟩ := h1
  have h2 := mem_snd_weighAnalysis _ _ q hq
  rw [hq2] at h2
  exact h2

theorem mem_of_scoredAvail (core exp : List Msg) (d : ℕ) (sat : Msg)
    (h : sat ∈ (((core.filter fun m => decide (0 < m.score)).map
          fun m => (m.score, m))
        ++ ((exp.filter fun m => decide (0 < m.score)).map
          fun m => (m.score / ((d : ℚ) + 1), m))).map Prod.snd) :
    sat ∈ core ∨ sat ∈ exp := by
  rw [List.map_append, List.mem_append] at h
  rcases h with h | h
  · left
    rw [List.map_map] at h
    simp only [List.mem_map, Function.comp_apply] at h
    obtain ⟨x, hx, rfl⟩ := h
    exact List.mem_of_mem_filter hx
  · right
    rw [List.map_map] at h
    simp only [List.mem_map, Function.comp_apply] at h
    obtain ⟨x, hx, rfl⟩ := h
    exact List.mem_of_mem_filter hx

theorem satStep_mem (nucleus : Msg) (core exp : List Msg) (k : ℕ)
    (prev : Msg) (dist : ℕ) (sat : Msg)
    (h : satStep nucleus core exp k prev dist = some sat) :
    sat ∈ core ∨ sat ∈ exp := by
  simp only [satStep] at h
  split at h
  · exact absurd h (by simp)
  · next pool hpool =>
    split at h
    · exact absurd h (by simp)
    · have hsat := pickTopPair_mem _ _ h
      split at hpool
      · split at hpool
        · exact absurd hpool (by simp)
        · split at hpool
          · obtain rfl := Option.some.inj hpool
            apply mem_of_scoredAvail core exp dist sat
            apply snd_mem_chain _ prev sat
            exact mem_snd_map_of_snd_preserving _ _ sat hsat (fun p => rfl)
          · exact absurd hpool (by simp)
      · obtain rfl := Option.some.inj hpool
        apply mem_of_scoredAvail core exp dist sat
        apply snd_mem_chain _ prev sat
        exact mem_snd_map_of_snd_preserving _ _ sat
          (mem_snd_filter _ _ sat hsat) (fun p => rfl)

theorem satFuel_spec (nucleus : Msg) :
    ∀ (fuel : ℕ) (core exp sats : List Msg) (prev : Msg) (dist : ℕ)
      (out : List Msg),
      (midsOf core).Disjoint (midsOf exp) →
      selectSatellitesFuel nucleus fuel core exp sats prev dist = some out →
      ∃ extra, out = sats ++ extra ∧ (midsOf extra).Nodup
        ∧ ∀ x ∈ extra, x.mid ∈ midsOf core ∨ x.mid ∈ midsOf exp := by
  intro fuel
  induction fuel with
  | zero =>
    intro core exp sats prev dist out hdisj h
    exact absurd h (by simp [selectSatellitesFuel])
  | succ fuel ih =>
    intro core exp sats prev dist out hdisj h
    simp only [selectSatellitesFuel] at h
    cases hstep : satStep nucleus core exp sats.length prev dist with
    | none =>
      simp only [hstep] at h
      obtain rfl := Option.some.inj h
      exact ⟨[], by simp, by simp [midsOf], by simp⟩
    | some sat =>
      simp only [hstep] at h
      rcases satStep_mem nucleus core exp sats.length prev dist sat hstep
        with hcmem | hemem
      · -- sat is a core message
        have hmm : memMsg core sat = true :=
          (memMsg_iff core sat).mpr (List.mem_map_of_mem _ hcmem)
        rw [if_pos hmm] at h
        have hdisj1 : (midsOf (removeMsg core sat)).Disjoint (midsOf exp) :=
          fun a ha => hdisj (midsOf_removeMsg_sub core sat a ha)
        obtain ⟨extra, hout, hnd, hsub⟩ := ih _ _ _ _ _ _ hdisj1 h
        refine ⟨sat :: extra, by simp [hout], ?_, ?_⟩
        · rw [show midsOf (sat :: extra) = sat.mid :: midsOf extra from rfl,
            List.nodup_cons]
          refine ⟨?_, hnd⟩
          intro hin
          simp only [midsOf, List.mem_map] at hin
          obtain ⟨x, hx, hxid⟩ := hin
          rcases hsub x hx with hx1 | hx2
          · rw [hxid] at hx1
            exact not_mem_mids_removeMsg core sat hx1
          · rw [hxid] at hx2
            exact hdisj ((memMsg_iff core sat).mp hmm) hx2
        · intro x hx
          rcases List.mem_cons.mp hx with rfl | hx
          · exact .inl (List.mem_map_of_mem _ hcmem)
          · rcases hsub x hx with hx1 | hx2
            · exact .inl (midsOf_removeMsg_sub core sat _ hx1)
            · exact .inr hx2
      · -- sat is an expanded message
        by_cases hmm : memMsg core sat = true
        · -- it also has a core twin: excluded by pool disjointness
          exact absurd (hdisj ((memMsg_iff core sat).mp hmm)
            (List.mem_map_of_mem _ hemem)) (by simp)
        · rw [if_neg (by simpa using hmm)] at h
          have hdisj1 : (midsOf core).Disjoint (midsOf (removeMsg exp sat)) :=
            fun a ha hb => hdisj ha (midsOf_removeMsg_sub exp sat a hb)
          obtain ⟨extra, hout, hnd, hsub⟩ := ih _ _ _ _ _ _ hdisj1 h
          refine ⟨sat :: extra, by simp [hout], ?_, ?_⟩
          · rw [show midsOf (sat :: extra) = sat.mid :: midsOf extra from rfl,
              List.nodup_cons]
            refine ⟨?_, hnd⟩
            intro hin
            simp only [midsOf, List.mem_map] at hin
            obtain ⟨x, hx, hxid⟩ := hin
            rcases hsub x hx with hx1 | hx2
            · rw [hxid] at hx1
              exact hmm ((memMsg_iff core sat).mpr hx1)
            · rw [hxid] at hx2
              exact not_mem_mids_removeMsg exp sat hx2
          · intro x hx
            rcases List.mem_cons.mp hx with rfl | hx
            · exact .inr (List.mem_map_of_mem _ hemem)
            · rcases hsub x hx with hx1 | hx2
              · exact .inl hx1
              · exact .inr (midsOf_removeMsg_sub exp sat _ hx2)

theorem selectSatellites_spec (nucleus : Msg) (core exp : List Msg)
    (hdisj : (midsOf core).Disjoint (midsOf exp)) :
    (midsOf (selectSatellites nucleus core exp)).Nodup
  ∧ ∀ x ∈ selectSatellites nucleus core exp,
      x.mid ∈ midsOf core ∨ x.mid ∈ midsOf exp := by
  unfold selectSatellites
  cases hf : selectSatellitesFuel nucleus (core.length + exp.length + 1)
      core exp [] nucleus 1 with
  | none => simp [midsOf]
  | some out =>
    obtain ⟨extra, hout, hnd, hsub⟩ :=
      satFuel_spec nucleus _ core exp [] nucleus 1 out hdisj hf
    rw [List.nil_append] at hout
    subst hout
    exact ⟨hnd, hsub⟩

theorem satFuel_sufficient (nucleus : Msg) :
    ∀ (fuel : ℕ) (core exp sats : List Msg) (prev : Msg) (dist : ℕ),
      core.length + exp.length < fuel →
      (selectSatellitesFuel nucleus fuel core exp sats prev dist).isSome := by
  intro fuel
  induction fuel with
  | zero =>
    intro core exp sats prev dist hlt
    omega
  | succ fuel ih =>
    intro core exp sats prev dist hlt
    simp only [selectSatellitesFuel]
    cases hstep : satStep nucleus core exp sats.length prev dist with
    | none => simp
    | some sat =>
      dsimp only
      rcases satStep_mem nucleus core exp sats.length prev dist sat hstep
        with hcmem | hemem
      · have hmm : memMsg core sat = true :=
          (memMsg_iff core sat).mpr (List.mem_map_of_mem _ hcmem)
        rw [if_pos hmm]
        apply ih
        have : (removeMsg core sat).length < core.length := by
          apply List.length_filter_lt_length_iff_exists.mpr
          exact ⟨sat, hcmem, by simp [msgEq]⟩
        omega
      · by_cases hmm : memMsg core sat = true
        · rw [if_pos hmm]
          apply ih
          have : (removeMsg core sat).length < core.length := by
            apply List.length_filter_lt_length_iff_exists.mpr
            have := (memMsg_iff core sat).mp hmm
            simp only [midsOf, List.mem_map] at this
            obtain ⟨x, hx, hxid⟩ := this
            exact ⟨x, hx, by simp [msgEq, hxid]⟩
          omega
        · rw [if_neg (by simpa using hmm)]
          apply ih
          have : (removeMsg exp sat).length < exp.length := by
            apply List.length_filter_lt_length_iff_exists.mpr
            exact ⟨sat, hemem, by simp [msgEq]⟩
          omega

theorem midsOf_cons (a : Msg) (l : List Msg) :
    midsOf (a :: l) = a.mid :: midsOf l := rfl

/-- One paragraph-construction step of the body planner preserves the
invariant that no message identity occurs twice across the plan so far
and the two remaining pools. -/
theorem plan_step_nodup (core exp : List Msg) (ps : List (List Msg))
    (nucleus : Msg)
    (hnd : (midsOf (ps.flatten ++ core ++ exp)).Nodup)
    (hmem : nucleus ∈ core) :
    (midsOf ((ps ++ [nucleus ::
        selectSatellites nucleus (removeMsg core nucleus) exp]).flatten
      ++ (removeMsg core nucleus).filter
          (fun m => !(memMsg (selectSatellites nucleus
            (removeMsg core nucleus) exp) m))
      ++ exp.filter
          (fun m => !(memMsg (selectSatellites nucleus
            (removeMsg core nucleus) exp) m)))).Nodup := by
  simp only [midsOf_append, List.nodup_append, List.disjoint_append_left] at hnd
  obtain ⟨⟨FN, CN, FC⟩, EN, FE, CE⟩ := hnd
  have C1N : (midsOf (removeMsg core nucleus)).Nodup := by
    simp only [removeMsg]
    exact nodup_midsOf_filter core _ CN
  have hdisjC1E : (midsOf (removeMsg core nucleus)).Disjoint (midsOf exp) :=
    fun a ha hb => CE (midsOf_removeMsg_sub core nucleus a ha) hb
  obtain ⟨SN, Ssub⟩ :=
    selectSatellites_spec nucleus (removeMsg core nucleus) exp hdisjC1E
  have hnC : nucleus.mid ∈ midsOf core := List.mem_map_of_mem _ hmem
  have hnF : nucleus.mid ∉ midsOf ps.flatten := fun hin => FC hin hnC
  have hnE : nucleus.mid ∉ midsOf exp := fun hin => CE hnC hin
  have hnC1 : nucleus.mid ∉ midsOf (removeMsg core nucleus) :=
    not_mem_mids_removeMsg core nucleus
  have hSsubCE : ∀ a ∈ midsOf (selectSatellites nucleus
      (removeMsg core nucleus) exp), a ∈ midsOf core ∨ a ∈ midsOf exp := by
    intro a ha
    simp only [midsOf, List.mem_map] at ha
    obtain ⟨x, hx, rfl⟩ := ha
    rcases Ssub x hx with h1 | h2
    · exact .inl (midsOf_removeMsg_sub core nucleus _ h1)
    · exact .inr h2
  have hnS : nucleus.mid ∉ midsOf (selectSatellites nucleus
      (removeMsg core nucleus) exp) := by
    intro hin
    simp only [midsOf, List.mem_map] at hin
    obtain ⟨x, hx, hxid⟩ := hin
    rcases Ssub x hx with h1 | h2
    · exact hnC1 (hxid ▸ h1)
    · exact hnE (hxid ▸ h2)
  have hnotS : ∀ (l : List Msg) (x : Msg),
      x ∈ l.filter (fun m => !(memMsg (selectSatellites nucleus
        (removeMsg core nucleus) exp) m)) →
      x.mid ∉ midsOf (selectSatellites nucleus (removeMsg core nucleus) exp) := by
    intro l x hx hxin
    have hf := (List.mem_filter.mp hx).2
    rw [Bool.not_eq_true'] at hf
    exact absurd ((memMsg_iff _ x).mpr hxin) (by simp [hf])
  have hC2subC : ∀ a ∈ midsOf ((removeMsg core nucleus).filter
      (fun m => !(memMsg (selectSatellites nucleus (removeMsg core nucleus) exp) m))),
      a ∈ midsOf core := fun a ha =>
    midsOf_removeMsg_sub core nucleus a (midsOf_filter_sub _ _ a ha)
  have hE2subE : ∀ a ∈ midsOf (exp.filter
      (fun m => !(memMsg (selectSatellites nucleus (removeMsg core nucleus) exp) m))),
      a ∈ midsOf exp := midsOf_filter_sub _ _
  have C2N : (midsOf ((removeMsg core nucleus).filter
      (fun m => !(memMsg (selectSatellites nucleus (removeMsg core nucleus) exp) m)))).Nodup :=
    nodup_midsOf_filter _ _ C1N
  have E2N : (midsOf (exp.filter
      (fun m => !(memMsg (selectSatellites nucleus (removeMsg core nucleus) exp) m)))).Nodup :=
    nodup_midsOf_filter _ _ EN
  have hnSdisjC2 : (nucleus.mid :: midsOf (selectSatellites nucleus
      (removeMsg core nucleus) exp)).Disjoint
      (midsOf ((removeMsg core nucleus).filter
        (fun m => !(memMsg (selectSatellites nucleus (removeMsg core nucleus) exp) m)))) := by
    intro a hain haC2
    rcases List.mem_cons.mp hain with rfl | hain
    · exact hnC1 (midsOf_filter_sub _ _ _ haC2)
    · simp only [midsOf, List.mem_map] at haC2
      obtain ⟨x, hx, hxid⟩ := haC2
      exact hnotS _ x hx (hxid ▸ hain)
  have hnSdisjE2 : (nucleus.mid :: midsOf (selectSatellites nucleus
      (removeMsg core nucleus) exp)).Disjoint
      (midsOf (exp.filter
        (fun m => !(memMsg (selectSatellites nucleus (removeMsg core nucleus) exp) m)))) := by
    intro a hain haE2
    rcases List.mem_cons.mp hain with rfl | hain
    · exact hnE (hE2subE _ haE2)
    · simp only [midsOf, List.mem_map] at haE2
      obtain ⟨x, hx, hxid⟩ := haE2
      exact hnotS _ x hx (hxid ▸ hain)
  have hFnS : (midsOf ps.flatten).Disjoint
      (nucleus.mid :: midsOf (selectSatellites nucleus
        (removeMsg core nucleus) exp)) := by
    intro a haF hain
    rcases List.mem_cons.mp hain with rfl | hain
    · exact hnF haF
    · rcases hSsubCE a hain with h1 | h2
      · exact FC haF h1
      · exact FE haF h2
  simp only [List.flatten_append, List.flatten_cons, List.flatten_nil,
    List.append_nil, midsOf_append, midsOf_cons]
  refine List.nodup_append.mpr ⟨List.nodup_append.mpr
    ⟨List.nodup_append.mpr ⟨FN, List.nodup_cons.mpr ⟨hnS, SN⟩, hFnS⟩,
     C2N, List.disjoint_append_left.mpr
       ⟨fun a ha hb => FC ha (hC2subC a hb), hnSdisjC2⟩⟩,
    E2N, ?_⟩
  refine List.disjoint_append_left.mpr ⟨List.disjoint_append_left.mpr
    ⟨fun a ha hb => FE ha (hE2subE a hb), hnSdisjE2⟩,
    fun a ha hb => CE (hC2subC a ha) (hE2subE a hb)⟩

theorem bodyLoopFuel_nodup :
    ∀ (fuel : ℕ) (core exp sel : List Msg) (ps out : List (List Msg)),
      (midsOf (ps.flatten ++ core ++ exp)).Nodup →
      bodyLoopFuel fuel core exp sel ps = .ok out →
      (midsOf out.flatten).Nodup := by
  intro fuel
  induction fuel with
  | zero =>
    intro core exp sel ps out hnd hrun
    exact absurd hrun (by simp [bodyLoopFuel])
  | succ fuel ih =>
    intro core exp sel ps out hnd hrun
    have hF : (midsOf ps.flatten).Nodup := by
      simp only [midsOf_append, List.nodup_append] at hnd
      exact hnd.1.1
    simp only [bodyLoopFuel] at hrun
    split at hrun
    · split at hrun
      · exact absurd hrun (by simp)
      · obtain rfl := Except.ok.inj hrun
        exact hF
    · next nucleus heq =>
      split at hrun
      · split at hrun
        · exact absurd hrun (by simp)
        · obtain rfl := Except.ok.inj hrun
          exact hF
      · have hpair : selectNextNucleus core sel
            = (some nucleus, (selectNextNucleus core sel).2) := by
          rw [← heq]
        have hmemN := (selectNextNucleus_some core sel nucleus _ hpair).2.1
        exact ih _ _ _ _ out (plan_step_nodup core exp ps nucleus hnd hmemN) hrun

/-- C8: in every document plan produced by the EU body planner, each
message occurs exactly once — a message placed as nucleus or satellite
is removed from the pools and never placed again (`for all m in plan:
count(m) == 1`, counting by object identity).  The hypothesis says the
input pools contain pairwise distinct message objects (always true of
Python lists of distinct `Message` instances). -/
theorem c8_no_duplicate_placement (core exp : List Msg)
    (ps : List (List Msg)) (rest : List Msg)
    (hnd : (midsOf (core ++ exp)).Nodup)
    (hrun : bodyRun core exp = .ok (ps, rest)) :
    ∀ m ∈ ps.flatten, (midsOf ps.flatten).count m.mid = 1 := by
  have hok : bodyLoopFuel (MAX_PARAGRAPHS + 1) core exp [] [] = .ok ps := by
    unfold bodyRun at hrun
    cases hb : bodyLoopFuel (MAX_PARAGRAPHS + 1) core exp [] [] with
    | error e => rw [hb] at hrun; simp [Except.map] at hrun
    | ok out =>
      rw [hb] at hrun
      obtain ⟨rfl, -⟩ : out = ps ∧ core ++ exp = rest := by
        simpa [Except.map, Prod.ext_iff] using hrun
      rfl
  have hplan : (midsOf ps.flatten).Nodup :=
    bodyLoopFuel_nodup (MAX_PARAGRAPHS + 1) core exp [] [] ps
      (by simpa using hnd) hok
  intro m hm
  exact List.count_eq_one_of_mem hplan (List.mem_map_of_mem _ hm)

/-- Two distinct messages about the same topic for the C8 witness. -/
def c8fact : Fact :=
  { location := "FI", locationType := "country", value := 2
    valueType := "cphi:hicp2015", agent := "none", agentType := "passive"
    timestamp := .y 2020, timestampType := "year", outlierness := 1 }

def c8m1 : Msg := { mid := 41, facts := [c8fact], mainFact := c8fact, score := 1 }

def c8m2 : Msg := { mid := 42, facts := [c8fact], mainFact := c8fact, score := 1 }

/-- Witness for C8: a concrete plan (one paragraph with nucleus `c8m1`
and satellite `c8m2`) places each message exactly once. -/
theorem c8_no_duplicate_placement_witness :
    (midsOf ([[c8m1, c8m2]] : List (List Msg)).flatten).count c8m1.mid = 1
  ∧ (midsOf ([[c8m1, c8m2]] : List (List Msg)).flatten).count c8m2.mid = 1 := by
  have hrun : bodyRun [c8m1, c8m2] [] = .ok ([[c8m1, c8m2]], [c8m1, c8m2]) := by
    set_option maxRecDepth 4000 in with_unfolding_all rfl
  exact ⟨c8_no_duplicate_placement [c8m1, c8m2] [] [[c8m1, c8m2]] [c8m1, c8m2]
      (by decide) hrun c8m1 (by simp),
    c8_no_duplicate_placement [c8m1, c8m2] [] [[c8m1, c8m2]] [c8m1, c8m2]
      (by decide) hrun c8m2 (by simp)⟩

/-! ### C9: score monotonicity in the timestamp -/

/-- `ts1` is an at-least-as-recent past-or-present timestamp than `ts2`,
at the granularity that `score_importance_single` reads off
`timestamp_type`: for `"year"`, both are year stamps no later than the
current year `Y`, with `ts2` no later than `ts1`; for `"month"`, both
are month stamps with months in `1..12`, years no later than `Y`, and
`ts2` lexicographically no later than `ts1`; every other
`timestamp_type` leaves `timestamp_score` untouched, so no constraint
is needed. -/
def closerPastTs (Y : ℤ) (tt : String) (ts1 ts2 : Ts) : Prop :=
  (tt = "year" ∧ ∃ t1 t2 : ℤ, ts1 = .y t1 ∧ ts2 = .y t2 ∧ t2 ≤ t1 ∧ t1 ≤ Y)
  ∨ (tt = "month" ∧ ∃ (y1 y2 : ℤ) (mo1 mo2 : ℕ),
      ts1 = .ym y1 mo1 ∧ ts2 = .ym y2 mo2
      ∧ 1 ≤ mo1 ∧ mo1 ≤ 12 ∧ 1 ≤ mo2 ∧ mo2 ≤ 12 ∧ y1 ≤ Y
      ∧ (y2 < y1 ∨ (y2 = y1 ∧ mo2 ≤ mo1)))
  ∨ (tt ≠ "year" ∧ tt ≠ "month")

/-- The product of the timestamp-independent factors of
`score_importance_single` on its non-early-return path
(`eu_importance_allocator.py`, lines 96-167): the value-type
multipliers and outlierness (`what_score`), the rank decay, the
reverse/change damping, and the importance coefficient. -/
def scoreMult (m : Msg) : ℚ :=
  let fact := m.mainFact
  let outlierScore : ℚ := if fact.outlierness = 0 then 1 else fact.outlierness
  let vt := fact.valueType
  let valueTypeScore : ℚ := if substrOf "_trend" vt then 1 * 500 else 1
  let valueTypeScore : ℚ :=
    if substrOf "_pps" vt then valueTypeScore * 10
    else if substrOf "_eur" vt then valueTypeScore * 40
    else valueTypeScore
  (valueTypeScore * outlierScore)
    * (if substrOf "_rank" vt then powQ (7/10) (fact.value - 1) else 1)
    * (if substrOf "_reverse" vt then
        (if substrOf "_change" vt then (7 : ℚ)/10 else 1/4) else 1)
    * m.importanceCoefficient

theorem powQ_nonneg (b e : ℚ) (hb : 0 ≤ b) : 0 ≤ powQ b e := by
  unfold powQ
  split
  · exact zpow_nonneg hb _
  · exact le_refl 0

theorem invsq_le_invsq {a b : ℤ} (ha : 1 ≤ a) (hab : a ≤ b) :
    (1 : ℚ) / ((b : ℚ)) ^ 2 ≤ 1 / ((a : ℚ)) ^ 2 := by
  have ha0 : (0 : ℚ) < (a : ℚ) := by exact_mod_cast lt_of_lt_of_le Int.zero_lt_one ha
  have hbq : ((a : ℚ)) ≤ ((b : ℚ)) := by exact_mod_cast hab
  exact one_div_le_one_div_of_le (pow_pos ha0 2) (pow_le_pow_left₀ ha0.le hbq 2)

theorem minDecay_mono {a b : ℤ} (ha : 1 ≤ a) (hab : a ≤ b) :
    min 1 ((1 : ℚ) / ((b : ℚ)) ^ 2) ≤ min 1 ((1 : ℚ) / ((a : ℚ)) ^ 2) :=
  min_le_min (le_refl 1) (invsq_le_invsq ha hab)

theorem minDecay_nonneg (b : ℤ) : (0 : ℚ) ≤ min 1 (1 / ((b : ℚ)) ^ 2) :=
  le_min zero_le_one (by positivity)

theorem convexComboMono (a b mo1 mo2 : ℚ) (hba : b ≤ a) (hmo : mo2 ≤ mo1) :
    a - (a - b) / 13 * (13 - mo2) ≤ a - (a - b) / 13 * (13 - mo1) := by
  nlinarith [mul_nonneg (sub_nonneg.mpr hba) (sub_nonneg.mpr hmo)]

theorem convexComboBounds (a b mo : ℚ) (hba : b ≤ a)
    (hmo1 : 1 ≤ mo) (hmo2 : mo ≤ 13) :
    b ≤ a - (a - b) / 13 * (13 - mo) ∧ a - (a - b) / 13 * (13 - mo) ≤ a := by
  constructor
  · nlinarith [mul_nonneg (sub_nonneg.mpr hba) (by linarith : (0 : ℚ) ≤ mo)]
  · nlinarith [mul_nonneg (sub_nonneg.mpr hba) (by linarith : (0 : ℚ) ≤ 13 - mo)]

/-- Monotonicity of the timestamp factor over past-or-present
timestamps: the closer stamp gets the at-least-as-large (and
non-negative) factor, and both factors are defined. -/
theorem tsScore_mono (base : Fact) (Y : ℤ) (ts1 ts2 : Ts)
    (hts : closerPastTs Y base.timestampType ts1 ts2) :
    ∃ T1 T2, tsScorePart { base with timestamp := ts1 } Y = some T1
      ∧ tsScorePart { base with timestamp := ts2 } Y = some T2
      ∧ T2 ≤ T1 ∧ 0 ≤ T2 := by
  rcases hts with ⟨htt, t1, t2, he1, he2, hle, hY⟩
    | ⟨htt, y1, y2, mo1, mo2, he1, he2, hm1a, hm1b, hm2a, hm2b, hy1, hlex⟩
    | ⟨htt1, htt2⟩
  · subst he1; subst he2
    have hne1 : ¬(Y + 1 - t1 = 0) := by omega
    have hne2 : ¬(Y + 1 - t2 = 0) := by omega
    refine ⟨20 * min 1 (1 / (((Y + 1 - t1 : ℤ) : ℚ)) ^ 2) * 2,
            20 * min 1 (1 / (((Y + 1 - t2 : ℤ) : ℚ)) ^ 2) * 2,
            by simp [tsScorePart, htt, hne1],
            by simp [tsScorePart, htt, hne2], ?_, ?_⟩
    · have h := minDecay_mono (a := Y + 1 - t1) (b := Y + 1 - t2)
        (by omega) (by omega)
      linarith
    · have h := minDecay_nonneg (Y + 1 - t2)
      linarith
  · subst he1; subst he2
    have hne1 : ¬(Y + 1 - y1 = 0 ∨ Y + 1 - (y1 - 1) = 0) := by omega
    have hne2 : ¬(Y + 1 - y2 = 0 ∨ Y + 1 - (y2 - 1) = 0) := by omega
    refine ⟨20 * (min 1 ((1 / (((Y + 1 - y1 : ℤ) : ℚ))) ^ 2)
              - (min 1 ((1 / (((Y + 1 - y1 : ℤ) : ℚ))) ^ 2)
                  - min 1 ((1 / (((Y + 1 - (y1 - 1) : ℤ) : ℚ))) ^ 2)) / 13
                * (13 - (mo1 : ℚ))),
            20 * (min 1 ((1 / (((Y + 1 - y2 : ℤ) : ℚ))) ^ 2)
              - (min 1 ((1 / (((Y + 1 - y2 : ℤ) : ℚ))) ^ 2)
                  - min 1 ((1 / (((Y + 1 - (y2 - 1) : ℤ) : ℚ))) ^ 2)) / 13
                * (13 - (mo2 : ℚ))),
            by simp [tsScorePart, htt, hne1],
            by simp [tsScorePart, htt, hne2], ?_, ?_⟩
    · simp only [div_pow, one_pow]
      have hb1 : min 1 ((1 : ℚ) / (((Y + 1 - (y1 - 1) : ℤ) : ℚ)) ^ 2)
          ≤ min 1 ((1 : ℚ) / (((Y + 1 - y1 : ℤ) : ℚ)) ^ 2) :=
        minDecay_mono (by omega) (by omega)
      rcases hlex with hy2 | ⟨rfl, hmo⟩
      · have hb2 : min 1 ((1 : ℚ) / (((Y + 1 - (y2 - 1) : ℤ) : ℚ)) ^ 2)
            ≤ min 1 ((1 : ℚ) / (((Y + 1 - y2 : ℤ) : ℚ)) ^ 2) :=
          minDecay_mono (by omega) (by omega)
        have hcross : min 1 ((1 : ℚ) / (((Y + 1 - y2 : ℤ) : ℚ)) ^ 2)
            ≤ min 1 ((1 : ℚ) / (((Y + 1 - (y1 - 1) : ℤ) : ℚ)) ^ 2) :=
          minDecay_mono (by omega) (by omega)
        have hup := (convexComboBounds _ _ ((mo2 : ℚ)) hb2
          (by exact_mod_cast hm2a) (by exact_mod_cast Nat.le_succ_of_le hm2b)).2
        have hlo := (convexComboBounds _ _ ((mo1 : ℚ)) hb1
          (by exact_mod_cast hm1a) (by exact_mod_cast Nat.le_succ_of_le hm1b)).1
        linarith
      · have h := convexComboMono _ _ ((mo1 : ℚ)) ((mo2 : ℚ)) hb1
          (by exact_mod_cast hmo)
        linarith
    · simp only [div_pow, one_pow]
      have hb2 : min 1 ((1 : ℚ) / (((Y + 1 - (y2 - 1) : ℤ) : ℚ)) ^ 2)
          ≤ min 1 ((1 : ℚ) / (((Y + 1 - y2 : ℤ) : ℚ)) ^ 2) :=
        minDecay_mono (by omega) (by omega)
      have hnn := minDecay_nonneg (Y + 1 - (y2 - 1))
      have hlo := (convexComboBounds _ _ ((mo2 : ℚ)) hb2
        (by exact_mod_cast hm2a) (by exact_mod_cast Nat.le_succ_of_le hm2b)).1
      linarith
  · refine ⟨20, 20, ?_, ?_, le_refl 20, by norm_num⟩
    · simp [tsScorePart, htt1, htt2]
    · simp [tsScorePart, htt1, htt2]

/-- On the non-early-return path, `score_importance_single` is exactly
the timestamp factor scaled by the timestamp-independent multiplier. -/
theorem scoreImportanceSingle_main (m : Msg) (Y : ℤ)
    (hnac : substrOf "_nac" m.mainFact.valueType = false)
    (hy : (substrOf "y-lt6" m.mainFact.valueType
      || substrOf "y6-10" m.mainFact.valueType
      || substrOf "y6-11" m.mainFact.valueType
      || substrOf "y11-15" m.mainFact.valueType
      || substrOf "y12-17" m.mainFact.valueType
      || substrOf "y-lt16" m.mainFact.valueType
      || substrOf "y16-24" m.mainFact.valueType
      || substrOf "y16-64" m.mainFact.valueType
      || substrOf "y-ge16" m.mainFact.valueType
      || substrOf "y-lt18" m.mainFact.valueType) = false)
    (ht : substrOf "_t_" m.mainFact.valueType = false) :
    scoreImportanceSingle m Y
      = (tsScorePart m.mainFact Y).map fun T => scoreMult m * T := by
  simp only [scoreImportanceSingle, scoreMult, hnac, hy, ht,
    Bool.false_eq_true, if_false]
  cases htsv : tsScorePart m.mainFact Y with
  | none => rfl
  | some T =>
    simp only [Option.map_some']
    split_ifs <;> ring_nf

theorem scoreMult_nonneg (m : Msg) (ho : 0 ≤ m.mainFact.outlierness)
    (hc : 0 ≤ m.importanceCoefficient) : 0 ≤ scoreMult m := by
  simp only [scoreMult]
  refine mul_nonneg (mul_nonneg (mul_nonneg (mul_nonneg ?_ ?_) ?_) ?_) hc
  · split_ifs <;> norm_num
  · split_ifs
    · norm_num
    · exact ho
  · split_ifs
    · exact powQ_nonneg _ _ (by norm_num)
    · norm_num
  · split_ifs <;> norm_num

/-- C9 amended: for two messages whose main facts differ only in the
timestamp (same `timestamp_type`), with equal non-negative importance
coefficients, non-negative outlierness, and timestamps not in the
future, the scorer is defined on both and gives the message with the
closer-to-present timestamp a greater-or-equal score.  The literal
claim, with no restriction to past timestamps, is refuted by
`c9_counterexample`. -/
theorem c9_score_monotone (base : Fact) (ts1 ts2 : Ts) (m1 m2 : Msg) (Y : ℤ)
    (h1 : m1.mainFact = { base with timestamp := ts1 })
    (h2 : m2.mainFact = { base with timestamp := ts2 })
    (hco : m1.importanceCoefficient = m2.importanceCoefficient)
    (hco0 : 0 ≤ m2.importanceCoefficient)
    (hout : 0 ≤ base.outlierness)
    (hts : closerPastTs Y base.timestampType ts1 ts2) :
    ∃ s1 s2, scoreImportanceSingle m1 Y = some s1
      ∧ scoreImportanceSingle m2 Y = some s2 ∧ s2 ≤ s1 := by
  by_cases hnac : substrOf "_nac" base.valueType = true
  · refine ⟨0, 0, ?_, ?_, le_refl 0⟩
    · simp [scoreImportanceSingle, h1, hnac]
    · simp [scoreImportanceSingle, h2, hnac]
  · by_cases hy : (substrOf "y-lt6" base.valueType
        || substrOf "y6-10" base.valueType
        || substrOf "y6-11" base.valueType
        || substrOf "y11-15" base.valueType
        || substrOf "y12-17" base.valueType
        || substrOf "y-lt16" base.valueType
        || substrOf "y16-24" base.valueType
        || substrOf "y16-64" base.valueType
        || substrOf "y-ge16" base.valueType
        || substrOf "y-lt18" base.valueType) = true
    · refine ⟨0, 0, ?_, ?_, le_refl 0⟩
      · simp [scoreImportanceSingle, h1, hnac, hy]
      · simp [scoreImportanceSingle, h2, hnac, hy]
    · by_cases ht : substrOf "_t_" base.valueType = true
      · refine ⟨0, 0, ?_, ?_, le_refl 0⟩
        · simp [scoreImportanceSingle, h1, hnac, hy, ht]
        · simp [scoreImportanceSingle, h2, hnac, hy, ht]
      · rw [Bool.not_eq_true] at hnac hy ht
        obtain ⟨T1, T2, hT1, hT2, hTle, hT2nn⟩ := tsScore_mono base Y ts1 ts2 hts
        have e1 : scoreImportanceSingle m1 Y = some (scoreMult m1 * T1) := by
          rw [scoreImportanceSingle_main m1 Y (by rw [h1]; exact hnac)
            (by rw [h1]; exact hy) (by rw [h1]; exact ht), h1, hT1]
          rfl
        have e2 : scoreImportanceSingle m2 Y = some (scoreMult m2 * T2) := by
          rw [scoreImportanceSingle_main m2 Y (by rw [h2]; exact hnac)
            (by rw [h2]; exact hy) (by rw [h2]; exact ht), h2, hT2]
          rfl
        have hmeq : scoreMult m1 = scoreMult m2 := by
          simp only [scoreMult, h1, h2, hco]
        have h0 : 0 ≤ scoreMult m2 :=
          scoreMult_nonneg m2 (by rw [h2]; exact hout) hco0
        refine ⟨scoreMult m1 * T1, scoreMult m2 * T2, e1, e2, ?_⟩
        calc scoreMult m2 * T2 ≤ scoreMult m2 * T1 :=
              mul_le_mul_of_nonneg_left hTle h0
          _ = scoreMult m1 * T1 := by rw [hmeq]

/-- A plain year-stamped CPHI fact for the C9 theorems. -/
def c9fact (t : ℤ) : Fact :=
  { location := "FI", locationType := "country", value := 2
    valueType := "cphi:hicp2015", agent := "none", agentType := "passive"
    timestamp := .y t, timestampType := "year", outlierness := 1 }

def c9msg (t : ℤ) : Msg := { mid := 90, facts := [c9fact t], mainFact := c9fact t }

/-- Counterexample to the literal C9: with the current year 2020, the
fact stamped 2019 (calendar distance 1) scores 10 while the otherwise
identical fact stamped 2022 (calendar distance 2, in the future) scores
40 — the scorer applies the inverse-square decay to a signed distance
that future years make negative, so the closer timestamp gets the
strictly smaller score. -/
theorem c9_counterexample :
    (2020 - (2019 : ℤ)).natAbs < ((2020 : ℤ) - 2022).natAbs
    ∧ scoreImportanceSingle (c9msg 2019) 2020 = some 10
    ∧ scoreImportanceSingle (c9msg 2022) 2020 = some 40
    ∧ ¬((10 : ℚ) ≥ 40) := by
  refine ⟨by decide, by with_unfolding_all rfl, by with_unfolding_all rfl,
    by norm_num⟩

/-- Witness for the amended C9: concrete messages stamped 2020 and 2019
under current year 2020. -/
theorem c9_score_monotone_witness :
    ∃ s1 s2, scoreImportanceSingle (c9msg 2020) 2020 = some s1
      ∧ scoreImportanceSingle (c9msg 2019) 2020 = some s2 ∧ s2 ≤ s1 :=
  c9_score_monotone (c9fact 2019) (.y 2020) (.y 2019) (c9msg 2020) (c9msg 2019)
    2020 rfl rfl rfl (by norm_num [c9msg]) (by norm_num [c9fact])
    (Or.inl ⟨rfl, 2020, 2019, rfl, rfl, by decide, by decide⟩)

/-! ### C10: the slot realizer's fixed-point loop -/

/-- Shape of a slot returned by a `kept` (`True, [slot]`) realization:
either the untouched slot, or the slot with its value overwritten by a
numeric constant lambda (`NumberRealizer` mutating in place). -/
@[reducible] def keptShape (s s1 : Slot) : Prop :=
  s1 = s ∨ (∃ n : ℤ, s1.src = .literal (.i n)) ∨ (∃ q : ℚ, s1.src = .literal (.q q))

theorem numberRealize_shape (s : Slot) :
    numberRealize s = .fail ∨ ∃ s1, numberRealize s = .kept s1 ∧ keptShape s s1 := by
  rcases hv : s.value with _ | v
  · left; simp [numberRealize, hv]
  · rcases hf : floatOf v with _ | x0
    · left; simp [numberRealize, hv, hf]
    · right
      by_cases hden : (if attrTruthy s.attributes "abs" then |x0| else x0).den = 1
      · refine ⟨{ s with src := SlotSource.literal (PyVal.i (if attrTruthy s.attributes "abs" then |x0| else x0).num) }, ?_, Or.inr (Or.inl ⟨_, rfl⟩)⟩
        simp only [numberRealize, hv, hf, if_pos hden]
      · rcases hfind : (List.range 5).find?
            (fun r => !(roundTo (if attrTruthy s.attributes "abs" then |x0| else x0) r = 0))
            with _ | r
        · refine ⟨s, ?_, Or.inl rfl⟩
          simp only [numberRealize, hv, hf, if_neg hden, hfind]
        · refine ⟨{ s with src := SlotSource.literal (PyVal.q (roundTo (if attrTruthy s.attributes "abs" then |x0| else x0) (r + 2))) }, ?_, Or.inr (Or.inr ⟨_, rfl⟩)⟩
          simp only [numberRealize, hv, hf, if_neg hden, hfind]

theorem numberRealize_ne_replaced (s : Slot) (cs : List Comp) :
    numberRealize s ≠ .replaced cs := by
  rcases numberRealize_shape s with h | ⟨s1, h, -⟩ <;> simp [h]

theorem numberRealize_kept_shape {s s1 : Slot} (h : numberRealize s = .kept s1) :
    keptShape s s1 := by
  rcases numberRealize_shape s with hf | ⟨s1', h', hsh⟩
  · rw [h] at hf; simp at hf
  · rw [h] at h'
    injection h' with he
    subst he
    exact hsh

theorem numberRealize_numeric (s : Slot)
    (h : (∃ n : ℤ, s.src = .literal (.i n)) ∨ (∃ q : ℚ, s.src = .literal (.q q))) :
    ∃ s2, numberRealize s = .kept s2 := by
  have hx : ∃ v, s.value = some v ∧ ∃ x0, floatOf v = some x0 := by
    rcases h with ⟨n, hsrc⟩ | ⟨q, hsrc⟩
    · exact ⟨.i n, by simp [Slot.value, hsrc], (n : ℚ), rfl⟩
    · exact ⟨.q q, by simp [Slot.value, hsrc], q, rfl⟩
  obtain ⟨v, hv, x0, hf⟩ := hx
  rcases numberRealize_shape s with hfail | ⟨s1, hk, -⟩
  · exfalso
    simp only [numberRealize, hv, hf] at hfail
    repeat' split at hfail
    all_goals exact RealizeRes.noConfusion hfail
  · exact ⟨s1, hk⟩

theorem numberRealize_kept_again {s s1 : Slot} (h : numberRealize s = .kept s1) :
    ∃ s2, numberRealize s1 = .kept s2 := by
  rcases numberRealize_kept_shape h with rfl | hnum
  · exact ⟨s1, h⟩
  · exact numberRealize_numeric s1 hnum

/-- A regex realizer either fails on a slot at every generator state
(consuming no randomness) or succeeds on it at every generator state:
all its tests read the slot alone, and only success draws. -/
theorem regexRealize_disj (d : RegexData) (s : Slot) :
    (∀ rng0, regexRealize d s rng0 = (.fail, rng0))
    ∨ (∀ rng0, ∃ cs rng2, regexRealize d s rng0 = (.replaced cs, rng2)) := by
  rcases hv : s.value with _ | v
  · left; intro rng0; simp [regexRealize, hv]
  · cases v with
    | s sval =>
      rcases hp : d.pattern sval with _ | groups
      · left; intro rng0; simp [regexRealize, hv, hp]
      · by_cases hg : ((d.groupReq.map fun gr => gr groups).getD true) = false
        · left; intro rng0; simp [regexRealize, hv, hp, hg]
        · by_cases hs : ((d.slotReq.map fun sr => sr s).getD true) = false
          · left; intro rng0; simp [regexRealize, hv, hp, hg, hs]
          · right; intro rng0
            refine ⟨tokensToComps s d.attachAttributesTo d.addAttributes
                (((d.templates.get? (rngDraw rng0 d.templates.length).1).getD
                  (fun _ => "")) groups),
              (rngDraw rng0 d.templates.length).2, ?_⟩
            simp [regexRealize, hv, hp, hg, hs]
    | i n => left; intro rng0; simp [regexRealize, hv]
    | q x => left; intro rng0; simp [regexRealize, hv]

theorem regexRealize_nonstring (d : RegexData) (s : Slot) (rng0 : Rng)
    (h : (∃ n : ℤ, s.src = .literal (.i n)) ∨ (∃ q : ℚ, s.src = .literal (.q q))) :
    regexRealize d s rng0 = (.fail, rng0) := by
  rcases h with ⟨n, hsrc⟩ | ⟨q, hsrc⟩ <;> simp [regexRealize, Slot.value, hsrc]

theorem lookupRealize_disj (d : LookupData) (s : Slot) :
    lookupRealize d s = .fail ∨ ∃ cs, lookupRealize d s = .replaced cs := by
  rcases hv : s.value with _ | v
  · left; simp [lookupRealize, hv]
  · cases v with
    | s sval =>
      rcases hd : d.dict.find? (fun p => p.1 == sval) with _ | p
      · left; simp [lookupRealize, hv, hd]
      · right
        refine ⟨tokensToComps s d.attachAttributesTo [] p.2, ?_⟩
        simp [lookupRealize, hv, hd]
    | i n => left; simp [lookupRealize, hv]
    | q x => left; simp [lookupRealize, hv]

theorem lookupRealize_nonstring (d : LookupData) (s : Slot)
    (h : (∃ n : ℤ, s.src = .literal (.i n)) ∨ (∃ q : ℚ, s.src = .literal (.q q))) :
    lookupRealize d s = .fail := by
  rcases h with ⟨n, hsrc⟩ | ⟨q, hsrc⟩ <;> simp [lookupRealize, Slot.value, hsrc]

/-- `_realize_slot` never reports failure: its base case returns the
untouched slot. -/
theorem realizeSlot_not_fail :
    ∀ (rs : List RealizerC) (lang : String) (s : Slot) (rng : Rng),
      (realizeSlot rs lang s rng).1 ≠ .fail := by
  intro rs
  induction rs with
  | nil => intro lang s rng; simp [realizeSlot]
  | cons r rest IH =>
    intro lang s rng
    by_cases hsup : supportedFor r lang = true
    · cases r with
      | number =>
        cases hnr : numberRealize s with
        | fail => simpa [realizeSlot, hsup, hnr] using IH lang s rng
        | kept s1 => simp [realizeSlot, hsup, hnr]
        | replaced cs => simp [realizeSlot, hsup, hnr]
      | regex d =>
        rcases hrr : regexRealize d s rng with ⟨rr1, rngx⟩
        cases rr1 with
        | fail => simpa [realizeSlot, hsup, hrr] using IH lang s rngx
        | kept s1 => simp [realizeSlot, hsup, hrr]
        | replaced cs => simp [realizeSlot, hsup, hrr]
      | lookup d =>
        cases hlk : lookupRealize d s with
        | fail => simpa [realizeSlot, hsup, hlk] using IH lang s rng
        | kept s1 => simp [realizeSlot, hsup, hlk]
        | replaced cs => simp [realizeSlot, hsup, hlk]
    · simpa [realizeSlot, hsup] using IH lang s rng

/-- A `kept` outcome of `_realize_slot` leaves the generator untouched
(every failure path precedes the draw) and its slot has `keptShape`. -/
theorem realizeSlot_kept_shape :
    ∀ (rs : List RealizerC) (lang : String) (s s1 : Slot) (rng rng1 : Rng),
      realizeSlot rs lang s rng = (.kept s1, rng1) →
      rng1 = rng ∧ keptShape s s1 := by
  intro rs
  induction rs with
  | nil =>
    intro lang s s1 rng rng1 h
    simp only [realizeSlot, Prod.mk.injEq, RealizeRes.kept.injEq] at h
    obtain ⟨rfl, rfl⟩ := h
    exact ⟨rfl, Or.inl rfl⟩
  | cons r rest IH =>
    intro lang s s1 rng rng1 h
    by_cases hsup : supportedFor r lang = true
    · cases r with
      | number =>
        simp only [realizeSlot, hsup, if_true] at h
        cases hnr : numberRealize s with
        | fail =>
          simp only [hnr] at h
          exact IH lang s s1 rng rng1 h
        | kept s1' =>
          simp only [hnr, Prod.mk.injEq, RealizeRes.kept.injEq] at h
          obtain ⟨rfl, rfl⟩ := h
          exact ⟨rfl, numberRealize_kept_shape hnr⟩
        | replaced cs =>
          simp only [hnr, Prod.mk.injEq] at h
          exact absurd h.1 (by simp)
      | regex d =>
        simp only [realizeSlot, hsup, if_true] at h
        rcases hrr : regexRealize d s rng with ⟨rr1, rngx⟩
        cases rr1 with
        | fail =>
          simp only [hrr] at h
          have hx : rngx = rng := by
            rcases regexRealize_disj d s with hfl | hrp
            · have := hfl rng; rw [hrr] at this
              exact (Prod.mk.injEq .. ▸ this).2.symm ▸ rfl
            · obtain ⟨cs, rng2, hx⟩ := hrp rng
              rw [hrr] at hx
              simp at hx
          rw [hx] at h
          exact IH lang s s1 rng rng1 h
        | kept s' =>
          exfalso
          rcases regexRealize_disj d s with hfl | hrp
          · have := hfl rng; rw [hrr] at this; simp at this
          · obtain ⟨cs, rng2, hx⟩ := hrp rng
            rw [hrr] at hx
            simp at hx
        | replaced cs =>
          simp only [hrr, Prod.mk.injEq] at h
          exact absurd h.1 (by simp)
      | lookup d =>
        simp only [realizeSlot, hsup, if_true] at h
        cases hlk : lookupRealize d s with
        | fail =>
          simp only [hlk] at h
          exact IH lang s s1 rng rng1 h
        | kept s' =>
          exfalso
          rcases lookupRealize_disj d s with h1 | ⟨cs, h1⟩ <;>
            (rw [h1] at hlk; simp at hlk)
        | replaced cs =>
          simp only [hlk, Prod.mk.injEq] at h
          exact absurd h.1 (by simp)
    · simp only [realizeSlot, hsup, if_false] at h
      exact IH lang s s1 rng rng1 h

/-- Re-running `_realize_slot` on the slot of a `kept` outcome is again
a `kept` outcome, at any generator state, consuming no randomness. -/
theorem realizeSlot_kept_again :
    ∀ (rs : List RealizerC) (lang : String) (s s1 : Slot) (rng rng1 : Rng),
      realizeSlot rs lang s rng = (.kept s1, rng1) →
      ∃ s2, ∀ rng0, realizeSlot rs lang s1 rng0 = (.kept s2, rng0) := by
  intro rs
  induction rs with
  | nil =>
    intro lang s s1 rng rng1 h
    simp only [realizeSlot, Prod.mk.injEq, RealizeRes.kept.injEq] at h
    obtain ⟨rfl, rfl⟩ := h
    exact ⟨_, fun rng0 => rfl⟩
  | cons r rest IH =>
    intro lang s s1 rng rng1 h
    by_cases hsup : supportedFor r lang = true
    · cases r with
      | number =>
        simp only [realizeSlot, hsup, if_true] at h
        cases hnr : numberRealize s with
        | fail =>
          simp only [hnr] at h
          obtain ⟨s2, hs2⟩ := IH lang s s1 rng rng1 h
          cases hnr1 : numberRealize s1 with
          | fail =>
            exact ⟨s2, fun rng0 => by
              simp only [realizeSlot, hsup, if_true, hnr1]
              exact hs2 rng0⟩
          | kept s2' =>
            exact ⟨s2', fun rng0 => by
              simp only [realizeSlot, hsup, if_true, hnr1]⟩
          | replaced cs => exact absurd hnr1 (numberRealize_ne_replaced s1 cs)
        | kept s1' =>
          simp only [hnr, Prod.mk.injEq, RealizeRes.kept.injEq] at h
          obtain ⟨rfl, rfl⟩ := h
          obtain ⟨s2, h2⟩ := numberRealize_kept_again hnr
          exact ⟨s2, fun rng0 => by
            simp only [realizeSlot, hsup, if_true, h2]⟩
        | replaced cs =>
          simp only [hnr, Prod.mk.injEq] at h
          exact absurd h.1 (by simp)
      | regex d =>
        simp only [realizeSlot, hsup, if_true] at h
        rcases hrr : regexRealize d s rng with ⟨rr1, rngx⟩
        cases rr1 with
        | fail =>
          simp only [hrr] at h
          obtain ⟨s2, hs2⟩ := IH lang s s1 rngx rng1 h
          have hshape := (realizeSlot_kept_shape rest lang s s1 rngx rng1 h).2
          have hfail1 : ∀ rng0, regexRealize d s1 rng0 = (.fail, rng0) := by
            rcases hshape with rfl | hnum
            · rcases regexRealize_disj d s1 with hf | hp
              · exact hf
              · exfalso
                obtain ⟨cs, rng2, hx⟩ := hp rng
                rw [hrr] at hx
                simp at hx
            · exact fun rng0 => regexRealize_nonstring d s1 rng0 hnum
          exact ⟨s2, fun rng0 => by
            simp only [realizeSlot, hsup, if_true, hfail1 rng0]
            exact hs2 rng0⟩
        | kept s' =>
          exfalso
          rcases regexRealize_disj d s with hfl | hrp
          · have := hfl rng; rw [hrr] at this; simp at this
          · obtain ⟨cs, rng2, hx⟩ := hrp rng
            rw [hrr] at hx
            simp at hx
        | replaced cs =>
          simp only [hrr, Prod.mk.injEq] at h
          exact absurd h.1 (by simp)
      | lookup d =>
        simp only [realizeSlot, hsup, if_true] at h
        cases hlk : lookupRealize d s with
        | fail =>
          simp only [hlk] at h
          obtain ⟨s2, hs2⟩ := IH lang s s1 rng rng1 h
          have hshape := (realizeSlot_kept_shape rest lang s s1 rng rng1 h).2
          have hfail1 : lookupRealize d s1 = .fail := by
            rcases hshape with rfl | hnum
            · exact hlk
            · exact lookupRealize_nonstring d s1 hnum
          exact ⟨s2, fun rng0 => by
            simp only [realizeSlot, hsup, if_true, hfail1]
            exact hs2 rng0⟩
        | kept s' =>
          exfalso
          rcases lookupRealize_disj d s with h1 | ⟨cs, h1⟩ <;>
            (rw [h1] at hlk; simp at hlk)
        | replaced cs =>
          simp only [hlk, Prod.mk.injEq] at h
          exact absurd h.1 (by simp)
    · simp only [realizeSlot, hsup, if_false] at h
      obtain ⟨s2, hs2⟩ := IH lang s s1 rng rng1 h
      exact ⟨s2, fun rng0 => by
        simp only [realizeSlot, hsup, if_false]
        exact hs2 rng0⟩

/-- A component pass that reports no modification leaves the generator
untouched, and re-running it on its own output again reports no
modification, at any generator state. -/
theorem processComps_false_again :
    ∀ (rs : List RealizerC) (lang : String) (comps comps1 : List Comp)
      (rng rng1 : Rng),
      processComps rs lang comps rng = (comps1, false, rng1) →
      rng1 = rng ∧ ∃ comps2, ∀ rng0,
        processComps rs lang comps1 rng0 = (comps2, false, rng0) := by
  intro rs lang comps
  induction comps with
  | nil =>
    intro comps1 rng rng1 h
    simp only [processComps, Prod.mk.injEq] at h
    obtain ⟨rfl, -, rfl⟩ := h
    exact ⟨rfl, [], fun rng0 => rfl⟩
  | cons c rest IH =>
    intro comps1 rng rng1 h
    cases c with
    | lit v =>
      rcases hres : processComps rs lang rest rng with ⟨a, flag, rng'⟩
      simp only [processComps, hres, Prod.mk.injEq] at h
      obtain ⟨rfl, rfl, rfl⟩ := h
      obtain ⟨rfl, comps2, h2⟩ := IH a rng rng' hres
      exact ⟨rfl, .lit v :: comps2, fun rng0 => by
        simp only [processComps, h2 rng0]⟩
    | slotC s =>
      rcases hrs : realizeSlot rs lang s rng with ⟨rr, rng'⟩
      cases rr with
      | kept s1 =>
        rcases hres : processComps rs lang rest rng' with ⟨a, flag, rng''⟩
        simp only [processComps, hrs, hres, Prod.mk.injEq] at h
        obtain ⟨rfl, rfl, rfl⟩ := h
        obtain ⟨h1, -⟩ := realizeSlot_kept_shape rs lang s s1 rng rng' hrs
        obtain ⟨s2, hs2⟩ := realizeSlot_kept_again rs lang s s1 rng rng' hrs
        rw [h1] at hres
        obtain ⟨h2r, comps2, h2⟩ := IH a rng rng'' hres
        exact ⟨h2r, .slotC s2 :: comps2, fun rng0 => by
          simp only [processComps, hs2 rng0, h2 rng0]⟩
      | replaced cs =>
        rcases hres : processComps rs lang rest rng' with ⟨a, flag, rng''⟩
        simp only [processComps, hrs, hres, Prod.mk.injEq] at h
        exact absurd h.2.1 (by simp)
      | fail =>
        have hnf := realizeSlot_not_fail rs lang s rng
        rw [hrs] at hnf
        exact absurd rfl hnf

mutual

/-- A tree pass that reports no modification leaves the generator
untouched; re-running it on its own output is again a no-modification
pass, at any generator state. -/
theorem srRecurse_false_again (rs : List RealizerC) (lang : String) :
    ∀ (t t1 : DPNode) (rng rng1 : Rng),
      srRecurse rs lang t rng = (t1, false, rng1) →
      rng1 = rng ∧ ∃ t2, ∀ rng0, srRecurse rs lang t1 rng0 = (t2, false, rng0)
  | .msg m, t1, rng, rng1, h => by
    cases htm : m.template with
    | none =>
      simp only [srRecurse, htm, Prod.mk.injEq] at h
      obtain ⟨rfl, -, rfl⟩ := h
      exact ⟨rfl, .msg m, fun rng0 => by simp only [srRecurse, htm]⟩
    | some tl =>
      rcases hres : processComps rs lang tl.components rng with ⟨a, flag, rng'⟩
      simp only [srRecurse, htm, hres, Prod.mk.injEq] at h
      obtain ⟨rfl, rfl, rfl⟩ := h
      obtain ⟨h1, comps2, h2⟩ :=
        processComps_false_again rs lang tl.components a rng rng' hres
      subst h1
      refine ⟨rfl, .msg { m with template := some { tl with components := comps2 } },
        fun rng0 => ?_⟩
      simp only [srRecurse, h2 rng0]
  | .node rel children, t1, rng, rng1, h => by
    rcases hres : srChildren rs lang children rng with ⟨cs1, flag, rng'⟩
    simp only [srRecurse, hres, Prod.mk.injEq] at h
    obtain ⟨rfl, rfl, rfl⟩ := h
    obtain ⟨h1, cs2, h2⟩ := srChildren_false_again rs lang children cs1 rng rng' hres
    subst h1
    exact ⟨rfl, .node rel cs2, fun rng0 => by simp only [srRecurse, h2 rng0]⟩

/-- List version of `srRecurse_false_again` for the `any(...)`
generator over a node's children. -/
theorem srChildren_false_again (rs : List RealizerC) (lang : String) :
    ∀ (cs cs1 : List DPNode) (rng rng1 : Rng),
      srChildren rs lang cs rng = (cs1, false, rng1) →
      rng1 = rng ∧ ∃ cs2, ∀ rng0, srChildren rs lang cs1 rng0 = (cs2, false, rng0)
  | [], cs1, rng, rng1, h => by
    simp only [srChildren, Prod.mk.injEq] at h
    obtain ⟨rfl, -, rfl⟩ := h
    exact ⟨rfl, [], fun rng0 => rfl⟩
  | c :: rest, cs1, rng, rng1, h => by
    rcases hresc : srRecurse rs lang c rng with ⟨c1, flagc, rngc⟩
    simp only [srChildren, hresc] at h
    cases flagc with
    | true => simp at h
    | false =>
      rcases hres2 : srChildren rs lang rest rngc with ⟨rest1, flag2, rng2⟩
      simp only [hres2, Prod.mk.injEq] at h
      obtain ⟨rfl, rfl, rfl⟩ := h
      obtain ⟨h1, c2, h2c⟩ := srRecurse_false_again rs lang c c1 rng rngc hresc
      rw [h1] at hres2
      obtain ⟨h1', rest2, h2r⟩ := srChildren_false_again rs lang rest rest1 rng _ hres2
      refine ⟨h1', c2 :: rest2, fun rng0 => ?_⟩
      simp only [srChildren, h2c rng0, h2r rng0, Bool.false_eq_true, if_false]

end

/-- The realizer loop's fixed point: when the loop returns, one more
pass over the returned tree reports no modification at any fuel and any
generator state, and consumes no randomness. -/
theorem slotRunLoop_fixed (rs : List RealizerC) (lang : String) :
    ∀ (fuel : ℕ) (t : DPNode) (rng : Rng) (t' : DPNode) (rng' : Rng),
      slotRunLoop rs lang fuel t rng = some (t', rng') →
      ∃ t2, ∀ fuel0 rng0, slotRunLoop rs lang (fuel0 + 1) t' rng0 = some (t2, rng0) := by
  intro fuel
  induction fuel with
  | zero => intro t rng t' rng' h; simp [slotRunLoop] at h
  | succ n IH =>
    intro t rng t' rng' h
    rcases hres : srRecurse rs lang t rng with ⟨t1, flag, rng1⟩
    simp only [slotRunLoop, hres] at h
    cases flag with
    | true => exact IH t1 rng1 t' rng' (by simpa using h)
    | false =>
      simp only [Bool.false_eq_true, if_false, Option.some.injEq, Prod.mk.injEq] at h
      obtain ⟨rfl, rfl⟩ := h
      obtain ⟨-, t2, h2⟩ := srRecurse_false_again rs lang t t1 rng rng1 hres
      exact ⟨t2, fun fuel0 rng0 => by
        simp only [slotRunLoop, h2 rng0, Bool.false_eq_true, if_false]⟩

/-- C10 amended: when `SlotRealizer.run` terminates, a second run on the
tree it returned finishes after a single pass in which every visit
reports no modification and no randomness is consumed — but the literal
claim that the second run leaves the tree identical is refuted by
`c10_counterexample`: a "no modification" pass can still rewrite slot
values in place, because `NumberRealizer` mutates the slot it was given
and returns `True, [slot]`, which the identity comparison
`modified_components != [child]` treats as unchanged. -/
theorem c10_second_run_single_pass (registryRealizers : List RealizerC)
    (language : String) (fuel : ℕ) (tree t' : DPNode) (rng rng' : Rng)
    (h : slotRealizerRun registryRealizers language fuel tree rng = some (t', rng')) :
    ∃ t2, ∀ fuel0 rng0,
      slotRealizerRun registryRealizers language (fuel0 + 1) t' rng0
        = some (t2, rng0) := by
  simp only [slotRealizerRun] at h ⊢
  exact slotRunLoop_fixed _ _ fuel tree rng t' rng' h

/-- A fact whose value is a float that rounds to the integer 1, for the
C10 counterexample. -/
def c10fact : Fact :=
  { location := "FI", locationType := "country", value := 10000001/10000000
    valueType := "cphi:hicp2015", agent := "none", agentType := "passive"
    timestamp := .y 2020, timestampType := "year", outlierness := 1 }

/-- A message whose template holds the single given slot. -/
def c10msgT (s : Slot) : Msg :=
  { mid := 100, facts := [c10fact], mainFact := c10fact
    template := some { components := [.slotC s] } }

def c10slot : Slot := { src := .field "value", attributes := [], fact := some c10fact }

def c10slot1 : Slot := { src := .literal (.q 1), attributes := [], fact := some c10fact }

def c10slot2 : Slot := { src := .literal (.i 1), attributes := [], fact := some c10fact }

def c10tree : DPNode := .msg (c10msgT c10slot)

def c10tree1 : DPNode := .msg (c10msgT c10slot1)

def c10tree2 : DPNode := .msg (c10msgT c10slot2)

/-- Counterexample to the literal C10: the first run rewrites the slot
value `1.0000001` to the rounded float `1.0` while reporting no
modification, and a second run on the returned tree coerces it further
to the int `1` — the second run's output differs from its input, so the
realizer has not reached a fixed point of the tree. -/
theorem c10_counterexample :
    slotRealizerRun [] "en" 3 c10tree [] = some (c10tree1, [])
    ∧ slotRealizerRun [] "en" 3 c10tree1 [] = some (c10tree2, [])
    ∧ c10tree1 ≠ c10tree2 := by
  refine ⟨by with_unfolding_all rfl, by with_unfolding_all rfl, ?_⟩
  intro h
  simp [c10tree1, c10tree2, c10msgT, c10slot1, c10slot2] at h

/-- Witness for the amended C10 at the counterexample input: the second
run on the returned tree is a single no-modification pass at every fuel
and generator state. -/
theorem c10_second_run_single_pass_witness :
    ∃ t2, ∀ fuel0 rng0,
      slotRealizerRun [] "en" (fuel0 + 1) c10tree1 rng0 = some (t2, rng0) :=
  c10_second_run_single_pass [] "en" 3 c10tree c10tree1 [] []
    (by with_unfolding_all rfl)

end EUNlg
